import Mathlib

/-!
Shallow embedding of the automated data-ingestion and alignment engine of
the repository (`数据网关.py`, class `OmniDataGateway`), together with
theorems settling the frozen claims about it.

Modelling conventions:
* A pandas `DataFrame` as loaded from a CSV file is a `Table`: a list of
  column names plus a list of rows, each row a list of `Cell`s aligned
  with the column list.
* A `Cell` is either `null` (an absent value, pandas `NaN`/`NaT`), a
  rational number (`num`), a string (`str`), or an already-parsed
  calendar date (`date`), carried as an integer day ordinal.  `Cell.date`
  models a value that `pd.to_datetime` resolves; `Cell.str` models a raw
  text literal, which the general date parser of the source does not
  resolve but the compact `YYYYMMDD` retry pass does (line 214-221 of the
  source).  Sub-day resolution of timestamps is not modelled.
* Absent numeric values (`NaN`) are `Option ℚ` with `none` for `NaN`;
  absent dates (`NaT`) are `Option Int` with `none` for `NaT`.  Pandas
  propagates `NaN` through arithmetic (`x - NaN = NaN`), which the
  `Option`-valued operations below reproduce.
-/

namespace OmniDataGateway

/-- A single value of a loaded table.  See the modelling conventions above. -/
inductive Cell where
  | null : Cell
  | num : ℚ → Cell
  | str : String → Cell
  | date : Int → Cell
deriving DecidableEq, Repr

/-- A loaded table: named columns and rows of cells (a pandas `DataFrame`). -/
structure Table where
  cols : List String
  rows : List (List Cell)
deriving DecidableEq, Repr

/-- Cell of `row` in the column named `col` of table `t` (pandas `df[col]`
row access); `null` when the column does not exist or the row is short. -/
def getCell (t : Table) (row : List Cell) (col : String) : Cell :=
  row.getD (t.cols.findIdx (· == col)) Cell.null

/-- `pat` occurs as a contiguous run inside the character list. -/
def subOccurs (pat : List Char) : List Char → Bool
  | [] => pat.isEmpty
  | c :: rest => pat.isPrefixOf (c :: rest) || subOccurs pat rest

/-- `col.lower().strip()` (line 195): lower-case every character and drop
surrounding whitespace, at the character-list level. -/
def lowerStrip (s : String) : List Char :=
  ((s.toList.map Char.toLower).dropWhile Char.isWhitespace).reverse.dropWhile
    Char.isWhitespace |>.reverse

/-- `pat` occurs as a substring of `hay` (`re.search` with a literal
pattern, the only kind of pattern the source uses). -/
def containsPat (hay : List Char) (pat : String) : Bool :=
  subOccurs pat.toList hay

/-- `STANDARD_FIELDS` of the source (line 48-53): per canonical field, the
ordered list of lowercase literal patterns recognised for it. -/
def STANDARD_FIELDS : String → List String
  | "date" => ["date", "日期", "时间", "交易日期", "tradingday", "time", "t_date"]
  | "price" => ["price", "收盘价", "结算价", "现货价格", "close", "lastprice", "settlement"]
  | "oi" => ["oi", "持仓量", "openinterest"]
  | "volume" => ["volume", "成交量", "vol"]
  | _ => []

/-- `_map_standard_field` (line 186-202): first column, in column order,
whose lower-cased stripped name contains one of the field's patterns.
The memoisation cache of the source is pure lookup caching and is not
modelled. -/
def mapStandardField (columns : List String) (standardField : String) : Option String :=
  columns.find? (fun col =>
    (STANDARD_FIELDS standardField).any (fun pat => containsPat (lowerStrip col) pat))

/-- General date parse of one cell (`pd.to_datetime(..., errors='coerce')`,
line 214): resolves already-date values, everything else is `NaT`. -/
def parseDateGeneral : Cell → Option Int
  | .date d => some d
  | _ => none

/-- Proleptic-Gregorian leap year. -/
def isLeapYear (y : Int) : Bool :=
  (y % 4 == 0 && y % 100 != 0) || y % 400 == 0

/-- Length of month `m` of year `y`. -/
def monthLength (y m : Int) : Int :=
  if m = 2 then (if isLeapYear y then 29 else 28)
  else if m = 4 ∨ m = 6 ∨ m = 9 ∨ m = 11 then 30
  else 31

/-- Day ordinal of the civil date `y-m-d` (days since 1970-01-01, the
standard days-from-civil computation). -/
def daysFromCivil (y m d : Int) : Int :=
  let y' := if m ≤ 2 then y - 1 else y
  let era := (if 0 ≤ y' then y' else y' - 399) / 400
  let yoe := y' - era * 400
  let mp := (m + 9) % 12
  let doy := (153 * mp + 2) / 5 + d - 1
  let doe := yoe * 365 + yoe / 4 - yoe / 100 + doy
  era * 146097 + doe - 719468

/-- Numeric value of a decimal digit character. -/
def digitVal (c : Char) : Int := Int.ofNat (c.toNat - 48)

/-- Integer denoted by a list of decimal digit characters. -/
def digitsVal (cs : List Char) : Int := cs.foldl (fun a c => a * 10 + digitVal c) 0

/-- Retry date parse of one cell (line 216-221): the source rewrites
8-digit compact dates `YYYYMMDD` into hyphenated form and reparses.
Date-valued cells round-trip through the string rewrite unchanged; an
8-digit all-digit string parses when it denotes a valid civil date. -/
def parseDateCompact : Cell → Option Int
  | .date d => some d
  | .str s =>
      let cs := s.toList
      if cs.length = 8 ∧ cs.all Char.isDigit then
        let y := digitsVal (cs.take 4)
        let m := digitsVal ((cs.drop 4).take 2)
        let d := digitsVal (cs.drop 6)
        if 1 ≤ m ∧ m ≤ 12 ∧ 1 ≤ d ∧ d ≤ monthLength y m then
          some (daysFromCivil y m d)
        else none
      else none
  | _ => none

/-- Numeric coercion of one cell (`pd.to_numeric(..., errors='coerce')`):
numbers pass through, dates become their nanosecond epoch count, anything
else is `NaN`. -/
def parseNum : Cell → Option ℚ
  | .num q => some q
  | .date d => some ((d : ℚ) * 86400000000000)
  | _ => none

/-- The two classifications `_detect_data_type` can assign. -/
inductive DataType where
  | spot : DataType
  | futures : DataType
deriving DecidableEq, Repr

/-- `has_oi` of `_detect_data_type` (line 134-137): some column name,
lower-cased and stripped, contains one of the open-interest markers. -/
def hasOICol (cols : List String) : Bool :=
  cols.any (fun c => ["持仓量", "openinterest", "oi"].any (containsPat (lowerStrip c)))

/-- `has_volume` of `_detect_data_type` (line 140-143). -/
def hasVolCol (cols : List String) : Bool :=
  cols.any (fun c => ["成交量", "volume", "vol"].any (containsPat (lowerStrip c)))

/-- `has_spot_price` of `_detect_data_type` (line 146-149). -/
def hasSpotCol (cols : List String) : Bool :=
  cols.any (fun c => ["现货价格", "spot"].any (containsPat (lowerStrip c)))

/-- Date span in days used by the classifier (line 156-161 and 173-178):
`(dates.max() - dates.min()).days` over the generally-parsed date column,
which pandas evaluates skipping `NaT`; it is undefined (and in the source
fires no branch) when the date column cannot be mapped or no date parses. -/
def dateSpan (t : Table) : Option Int :=
  match mapStandardField t.cols "date" with
  | none => none
  | some dc =>
      let ds := (t.rows.map (fun r => parseDateGeneral (getCell t r dc))).filterMap id
      match ds.max?, ds.min? with
      | some mx, some mn => some (mx - mn)
      | _, _ => none

/-- `_detect_data_type` (line 129-184), flattened: the source returns
`futures` at once on an open-interest column; otherwise, inside the
`has_oi or (has_volume and not has_spot_price)` block (which with
`has_oi` false means `has_volume and not has_spot_price`), it returns
`futures` when the date span is under 1000 days, else falls through to
the two spot rules, and finally returns `None` (unknown). -/
def detectDataType (t : Table) : Option DataType :=
  let hoi := hasOICol t.cols
  let hvol := hasVolCol t.cols
  let hspot := hasSpotCol t.cols
  if hoi then some .futures
  else if hvol && !hspot &&
      (match dateSpan t with | some s => decide (s < 1000) | none => false) then
    some .futures
  else if hspot && !hoi then some .spot
  else if !hoi && decide (100 < t.rows.length) &&
      (match dateSpan t with | some s => decide (1000 < s) | none => false) then
    some .spot
  else none

/-- One row of a normalised series: the canonical columns `date`, `price`,
and (futures only, when mappable) `oi` and `volume` of the DataFrame that
`_normalize_dataframe` returns. -/
structure NRow where
  date : Option Int
  price : Option ℚ
  oi : Option ℚ
  volume : Option ℚ
deriving DecidableEq, Repr

/-- A normalised series: which optional columns are present, plus the rows. -/
structure NormalizedSeries where
  hasOI : Bool
  hasVolume : Bool
  rows : List NRow
deriving DecidableEq, Repr

instance {ε α : Type} [DecidableEq ε] [DecidableEq α] : DecidableEq (Except ε α) :=
  fun a b =>
    match a, b with
    | .error e1, .error e2 => decidable_of_iff (e1 = e2) (by simp)
    | .error _, .ok _ => isFalse (by simp)
    | .ok _, .error _ => isFalse (by simp)
    | .ok a1, .ok a2 => decidable_of_iff (a1 = a2) (by simp)

/-- The parsed date column (line 214-223): the general parse, retried with
the compact-`YYYYMMDD` rewrite when the general parse is all-`NaT`. -/
def parsedDates (t : Table) (dc : String) : List (Option Int) :=
  if (t.rows.map (fun r => parseDateGeneral (getCell t r dc))).all Option.isNone then
    t.rows.map (fun r => parseDateCompact (getCell t r dc))
  else t.rows.map (fun r => parseDateGeneral (getCell t r dc))

/-- Numeric coercion of the column named `pc` (line 228 etc.). -/
def pricesFromCol (t : Table) (pc : String) : List (Option ℚ) :=
  t.rows.map (fun r => parseNum (getCell t r pc))

/-- Price column resolution (line 226-235): the mapped price column, else
the literal fallbacks `收盘价` and `现货价格`, else failure. -/
def priceColResolve (t : Table) : Option (List (Option ℚ)) :=
  match mapStandardField t.cols "price" with
  | some pc => some (pricesFromCol t pc)
  | none =>
      if "收盘价" ∈ t.cols then some (pricesFromCol t "收盘价")
      else if "现货价格" ∈ t.cols then some (pricesFromCol t "现货价格")
      else none

/-- Deduplication by date keeping the first occurrence
(`drop_duplicates(subset=['date'], keep='first')`, line 258), written with
an accumulator of already-seen date keys.  Pandas treats `NaT` as equal to
`NaT` here, as does the `Option Int` key equality. -/
def dedupByDateAux (seen : List (Option Int)) : List NRow → List NRow
  | [] => []
  | r :: rs =>
      if r.date ∈ seen then dedupByDateAux seen rs
      else r :: dedupByDateAux (r.date :: seen) rs

/-- Deduplication by date keeping the first occurrence (line 258). -/
def dedupByDate (l : List NRow) : List NRow := dedupByDateAux [] l

/-- Date-key comparison of `sort_values('date')` (line 261): ascending on
dates, `NaT` sorted last (`na_position='last'`). -/
def okLE : Option Int → Option Int → Bool
  | none, none => true
  | none, some _ => false
  | some _, none => true
  | some a, some b => a ≤ b

/-- Strict version of `okLE`. -/
def okLT : Option Int → Option Int → Bool
  | none, _ => false
  | some _, none => true
  | some a, some b => a < b

/-- Row order of `sort_values('date')` (line 261). -/
def RowLE (a b : NRow) : Prop := okLE a.date b.date = true

instance : DecidableRel RowLE := fun a b => by unfold RowLE; infer_instance

/-- Forward fill of the price column (`ffill()`, line 264): `c` is the last
valid value seen so far (`none` before the first valid value). -/
def ffillRows (c : Option ℚ) : List NRow → List NRow
  | [] => []
  | r :: rs =>
      match r.price with
      | some p => r :: ffillRows (some p) rs
      | none =>
          match c with
          | some p => { r with price := some p } :: ffillRows (some p) rs
          | none => r :: ffillRows none rs

/-- The mapped open-interest column (line 238-241): futures only. -/
def oiColOf (t : Table) (kind : DataType) : Option String :=
  if kind = .futures then mapStandardField t.cols "oi" else none

/-- The mapped volume column (line 243-245): futures only. -/
def volColOf (t : Table) (kind : DataType) : Option String :=
  if kind = .futures then mapStandardField t.cols "volume" else none

/-- Numeric coercion of an optional column: the coerced values when the
column was mapped, an all-absent column otherwise. -/
def optNumCol (t : Table) (c : Option String) : List (Option ℚ) :=
  match c with
  | some col => t.rows.map (fun r => parseNum (getCell t r col))
  | none => t.rows.map (fun _ => (none : Option ℚ))

/-- The rows of the normalised frame before deduplication (line 204-255):
parsed dates and coerced prices (plus optional open interest and volume)
zipped positionally, one `NRow` per source row. -/
def rows0Of (t : Table) (kind : DataType) (dc : String) (prices : List (Option ℚ)) :
    List NRow :=
  ((parsedDates t dc).zip (prices.zip
      ((optNumCol t (oiColOf t kind)).zip (optNumCol t (volColOf t kind))))).map
    (fun x => NRow.mk x.1 x.2.1 x.2.2.1 x.2.2.2)

/-- `_normalize_dataframe` (line 204-266) up to but excluding the final
forward fill: field mapping, date and numeric parsing, restriction to the
canonical columns, deduplication by date, sort by date.  Returns the
`oi`/`volume` presence flags and the sorted deduplicated rows, or the
`ValueError` message the source raises. -/
def preNormalize (t : Table) (kind : DataType) (identifier : String) :
    Except String (Bool × Bool × List NRow) :=
  match mapStandardField t.cols "date" with
  | none => .error ("无法找到日期字段: " ++ identifier)
  | some dc =>
      match priceColResolve t with
      | none => .error ("无法找到价格字段: " ++ identifier)
      | some prices =>
          .ok ((oiColOf t kind).isSome, (volColOf t kind).isSome,
               List.insertionSort RowLE (dedupByDate (rows0Of t kind dc prices)))

/-- `_normalize_dataframe` (line 204-266): `preNormalize` followed by the
forward fill of the price column. -/
def normalizeDF (t : Table) (kind : DataType) (identifier : String) :
    Except String NormalizedSeries :=
  (preNormalize t kind identifier).map
    (fun x => NormalizedSeries.mk x.1 x.2.1 (ffillRows none x.2.2))

/-- ASCII lowercase letter test (`[a-z]` of the contract-code regex). -/
def isLowerAlpha (c : Char) : Bool := 'a' ≤ c && c ≤ 'z'

/-- Leftmost match of `[a-z]+\d\d\d\d` (line 271): at each start position
the letter run is taken greedily (letters and digits are disjoint, so no
backtracking applies) and must be followed by at least four digits; the
match is the run plus the first four digits.  On failure the scan moves
one position right, which is equivalent to the regex engine's behaviour:
a start inside a failing letter run sees a suffix of the same run
followed by the same too-short digit run and fails as well. -/
def findCode : List Char → Option String
  | [] => none
  | c :: rest =>
      if isLowerAlpha c then
        let letters := c :: rest.takeWhile isLowerAlpha
        let digits := (rest.dropWhile isLowerAlpha).takeWhile Char.isDigit
        if 4 ≤ digits.length then some (String.mk (letters ++ digits.take 4))
        else findCode rest
      else findCode rest

/-- `Path(...).stem`: the file name without its final extension — the part
before the last dot, the whole name when there is no dot or the dot is the
leading character of a hidden file.  (Degenerate names such as a trailing
bare dot are not distinguished.) -/
def fileStem (name : String) : String :=
  match name.toList.reverse.dropWhile (fun c => !(c == '.')) with
  | [] => name
  | _ :: tl => if tl.isEmpty then name else String.mk tl.reverse

/-- `_extract_contract_code` (line 268-282): the regex match on the
lower-cased file name; else the first cell of the first column whose name
contains `合约` (raw) or `contract` (lower-cased), provided that cell is a
non-empty string; else the file stem. -/
def extractContractCode (filename : String) (t : Table) : String :=
  match findCode (filename.toList.map Char.toLower) with
  | some code => code
  | none =>
      match t.cols.findSome? (fun col =>
        if containsPat col.toList "合约" || containsPat (col.toList.map Char.toLower) "contract" then
          match t.rows.head? with
          | some row =>
              match getCell t row col with
              | .str s => if s ≠ "" then some s else none
              | _ => none
          | none => none
        else none) with
      | some v => v
      | none => fileStem filename

/-- The accumulated session state of `scan_and_load` (line 55-127): the
spot slot, the contract registry (an association list with dict insertion
order), the two counters and the error list of `stats`. -/
structure ScanState where
  spotData : Option NormalizedSeries
  futuresData : List (String × NormalizedSeries)
  spotCount : Nat
  futuresCount : Nat
  errors : List String
deriving DecidableEq, Repr

/-- Dict insertion: overwrite in place on an existing key (keeping the
key's original position, as a Python dict does), else append. -/
def dictInsert (m : List (String × NormalizedSeries)) (k : String)
    (v : NormalizedSeries) : List (String × NormalizedSeries) :=
  if m.any (·.1 == k) then m.map (fun p => if p.1 == k then (k, v) else p)
  else m ++ [(k, v)]

/-- The per-file body of the scan loop (line 82-121): an empty table is
recorded as unreadable; otherwise the file is classified and normalised,
a spot file overwrites the spot slot, a futures file is inserted into the
registry under its extracted code, an unclassifiable file or a
normalisation failure is recorded in the error list and leaves the data
state untouched. -/
def processFile (st : ScanState) (f : String × Table) : ScanState :=
  if f.2.rows.isEmpty then
    { st with errors := st.errors ++ [f.1 ++ ": 文件为空或无法读取"] }
  else
    match detectDataType f.2 with
    | some .spot =>
        match normalizeDF f.2 .spot (fileStem f.1) with
        | .ok s => { st with spotData := some s, spotCount := st.spotCount + 1 }
        | .error e => { st with errors := st.errors ++ [f.1 ++ ": " ++ e] }
    | some .futures =>
        let code := extractContractCode f.1 f.2
        match normalizeDF f.2 .futures code with
        | .ok s => { st with futuresData := dictInsert st.futuresData code s,
                             futuresCount := st.futuresCount + 1 }
        | .error e => { st with errors := st.errors ++ [f.1 ++ ": " ++ e] }
    | none => { st with errors := st.errors ++ [f.1 ++ ": 无法识别数据类型"] }

/-- The empty session state at the start of a scan. -/
def initialScanState : ScanState := ⟨none, [], 0, 0, []⟩

/-- `scan_and_load` (line 55-127) over already-loaded tables: the files
are processed one at a time in discovery order. -/
def scanAndLoad (files : List (String × Table)) : ScanState :=
  files.foldl processFile initialScanState

/-- Dict lookup keyed by date (`dict(zip(dates, prices))` plus `get`):
the last row carrying the key wins, as in a Python dict built by `zip`. -/
def dictGetRow (rows : List NRow) (k : Option Int) : Option NRow :=
  rows.foldl (fun acc r => if r.date = k then some r else acc) none

/-- Panel cell lookup: `dict.get(d, np.nan)` collapsed to the column value,
where a missing key and a stored `NaN` are both the absent value. -/
def colGet (rows : List NRow) (k : Option Int) : Option ℚ :=
  match dictGetRow rows k with
  | some r => r.price
  | none => none

/-- The nearest-neighbour scan of the cold-start fallback (line 323-329):
iterate the spot entries in order keeping the entry of minimal absolute
day distance (strict improvement only).  Entries with `NaT` dates never
update (in the source their `nan` distance fails every comparison).
`minDiff = none` is the initial `inf`; a `some` result carries the
selected entry's price, which may itself be absent. -/
def nearestPriceAux (target : Int) : List NRow → Option Nat → Option (Option ℚ) →
    Option (Option ℚ)
  | [], _, closest => closest
  | r :: rs, minDiff, closest =>
      match r.date with
      | none => nearestPriceAux target rs minDiff closest
      | some sd =>
          let diff := (target - sd).natAbs
          if (match minDiff with | none => true | some m => decide (diff < m)) then
            nearestPriceAux target rs (some diff) (some r.price)
          else nearestPriceAux target rs minDiff closest

/-- The alignment loop (line 309-332): for each futures-union date in
ascending order, an exact spot observation is used and becomes the
carry-forward cursor; else the cursor value is reused; else the
nearest-neighbour fallback runs.  The cursor distinguishes "no value yet"
(`none`, Python `None`) from a held absent value (`some none`, a held
`NaN`). -/
def alignLoop (spotRows : List NRow) (last : Option (Option ℚ)) :
    List Int → List NRow
  | [] => []
  | d :: ds =>
      match dictGetRow spotRows (some d) with
      | some r =>
          ⟨some d, r.price, none, none⟩ :: alignLoop spotRows (some r.price) ds
      | none =>
          match last with
          | some p => ⟨some d, p, none, none⟩ :: alignLoop spotRows (some p) ds
          | none =>
              let c := nearestPriceAux d spotRows none none
              ⟨some d, c.join, none, none⟩ :: alignLoop spotRows c ds

/-- The futures-union calendar (line 290-298): the sorted set of all
non-`NaT` dates of all futures series. -/
def futuresUnionDates (futs : List NormalizedSeries) : List Int :=
  List.insertionSort (fun a b => a ≤ b)
    ((futs.flatMap (fun f => f.rows.filterMap (·.date))).dedup)

/-- `_align_to_futures_trading_days` (line 284-337) as a function from the
spot slot and the futures series to the new spot slot: a no-op when the
spot slot is empty, no futures series exist, or the futures-union
calendar is empty; otherwise the realigned two-column series. -/
def alignedSpot (spot : Option NormalizedSeries) (futs : List NormalizedSeries) :
    Option NormalizedSeries :=
  match spot with
  | none => none
  | some s =>
      if futs.isEmpty then some s
      else
        let uds := futuresUnionDates futs
        if uds.isEmpty then some s
        else some ⟨false, false, alignLoop s.rows none uds⟩

/-- The unified panel (line 339-376): a date index plus named columns. -/
structure Panel where
  index : List (Option Int)
  cols : List (String × List (Option ℚ))
deriving DecidableEq, Repr

/-- Absent-propagating subtraction (`spot - fut` with `NaN` semantics). -/
def osub : Option ℚ → Option ℚ → Option ℚ
  | some a, some b => some (a - b)
  | _, _ => none

/-- The panel index (line 343-353): the sorted set of every date key of
the (aligned) spot series and of every futures series, `NaT` included. -/
def panelIndexOf (spot : Option NormalizedSeries)
    (futs : List (String × NormalizedSeries)) : List (Option Int) :=
  let keys := (match spot with
                | some s => s.rows.map (·.date)
                | none => []) ++
              futs.flatMap (fun f => f.2.rows.map (·.date))
  List.insertionSort (fun a b => okLE a b = true) keys.dedup

/-- `get_unified_panel` (line 339-376): align the spot slot, build the
union index (empty index gives the empty panel), then emit the
`spot_price` column when a spot series exists and, per registry contract
in order, the `futures_<id>` column and — only when a spot series exists —
the `basis_<id>` column of pointwise `NaN`-propagating differences. -/
def getUnifiedPanel (spot0 : Option NormalizedSeries)
    (futs : List (String × NormalizedSeries)) : Panel :=
  let spot := alignedSpot spot0 (futs.map (·.2))
  let idx := panelIndexOf spot futs
  if idx.isEmpty then ⟨[], []⟩
  else
    ⟨idx,
      (match spot with
        | some s => [("spot_price", idx.map (colGet s.rows))]
        | none => []) ++
      futs.flatMap (fun f =>
        ("futures_" ++ f.1, idx.map (colGet f.2.rows)) ::
        (match spot with
          | some s =>
              [("basis_" ++ f.1,
                idx.map (fun d => osub (colGet s.rows d) (colGet f.2.rows d)))]
          | none => []))⟩

/-- Re-encoding of a date value as a table cell: a date prints and
reparses to itself, `NaT` stays absent. -/
def encodeDateCell : Option Int → Cell
  | some d => .date d
  | none => .null

/-- Re-encoding of a numeric value as a table cell. -/
def encodeNumCell : Option ℚ → Cell
  | some q => .num q
  | none => .null

/-- The table a normalised series is, when fed back to the normaliser: its
canonical columns `date`, `price` and the optional `oi`/`volume`. -/
def encodeSeries (s : NormalizedSeries) : Table :=
  ⟨["date", "price"] ++ (if s.hasOI then ["oi"] else []) ++
     (if s.hasVolume then ["volume"] else []),
   s.rows.map (fun r =>
     [encodeDateCell r.date, encodeNumCell r.price] ++
       (if s.hasOI then [encodeNumCell r.oi] else []) ++
       (if s.hasVolume then [encodeNumCell r.volume] else []))⟩

/-- A non-empty file that the classifier labels spot. -/
def isSpotFile (f : String × Table) : Bool :=
  !f.2.rows.isEmpty && (detectDataType f.2 == some DataType.spot)

/-- The error-list entry a single scanned file contributes, if any:
unreadable/empty files, unclassifiable files and normalisation failures
are recorded; successfully ingested files contribute nothing. -/
def scanErrorEntry (f : String × Table) : Option String :=
  if f.2.rows.isEmpty then some (f.1 ++ ": 文件为空或无法读取")
  else
    match detectDataType f.2 with
    | some .spot =>
        match normalizeDF f.2 .spot (fileStem f.1) with
        | .ok _ => none
        | .error e => some (f.1 ++ ": " ++ e)
    | some .futures =>
        match normalizeDF f.2 .futures (extractContractCode f.1 f.2) with
        | .ok _ => none
        | .error e => some (f.1 ++ ": " ++ e)
    | none => some (f.1 ++ ": 无法识别数据类型")

/-- The most recent non-absent value of `ps`, else the carry `c`. -/
def lastValD (c : Option ℚ) (ps : List (Option ℚ)) : Option ℚ :=
  match (ps.filterMap id).getLast? with
  | some p => some p
  | none => c

/- Concrete tables and series used by the witness and counterexample
theorems below. -/

/-- A spot table whose first price is absent: after normalisation the
leading gap stays absent. -/
def exSpotT : Table := ⟨["date", "现货价格"], [[.date 1, .null], [.date 2, .num 10]]⟩

/-- The normalised series of `exSpotT`. -/
def exSpotS : NormalizedSeries :=
  ⟨false, false, [⟨some 1, none, none, none⟩, ⟨some 2, some 10, none, none⟩]⟩

/-- A one-row futures table with an open-interest column. -/
def exFutT : Table := ⟨["date", "收盘价", "持仓量"], [[.date 0, .num 5, .num 100]]⟩

/-- The normalised series of `exFutT`. -/
def exFutS : NormalizedSeries :=
  ⟨true, false, [⟨some 0, some 5, some 100, none⟩]⟩

/-- A one-row spot table with a present price. -/
def exGoodSpotT : Table := ⟨["date", "现货价格"], [[.date 1, .num 10]]⟩

/-- The normalised series of `exGoodSpotT`. -/
def exGoodSpotS : NormalizedSeries := ⟨false, false, [⟨some 1, some 10, none, none⟩]⟩

/-- A second one-row spot table, with a different price. -/
def exSpotT2 : Table := ⟨["date", "现货价格"], [[.date 1, .num 20]]⟩

/-- The spot table of the specification's forward-fill scenario: prices
`[10, NaN, 12]` on three consecutive dates. -/
def exFfT : Table :=
  ⟨["date", "现货价格"], [[.date 1, .num 10], [.date 2, .null], [.date 3, .num 12]]⟩

/-- A table with two rows sharing the date, carrying different prices. -/
def exDdT : Table := ⟨["date", "close"], [[.date 5, .num 10], [.date 5, .num 99]]⟩

/-- A 101-row table with a volume column, no open-interest and no
spot-price column, whose date span is exactly 1000 days. -/
def exSpanT : Table :=
  ⟨["date", "close", "vol"],
   (List.range 101).map (fun i => [.date (if i = 100 then 1000 else i), .num 1, .num 2])⟩

/-! Order facts about the date-key comparison. -/

theorem okLE_total (a b : Option Int) : okLE a b = true ∨ okLE b a = true := by
  cases a <;> cases b <;> simp [okLE] <;> omega

theorem okLE_trans {a b c : Option Int} (h1 : okLE a b = true) (h2 : okLE b c = true) :
    okLE a c = true := by
  cases a <;> cases b <;> cases c <;> simp_all [okLE] <;> omega

instance : IsTotal NRow RowLE := ⟨fun a b => okLE_total a.date b.date⟩

instance : IsTrans NRow RowLE := ⟨fun _ _ _ => okLE_trans⟩

theorem okLT_of_okLE_ne {a b : Option Int} (h : okLE a b = true) (hne : a ≠ b) :
    okLT a b = true := by
  cases a <;> cases b <;> simp_all [okLE, okLT] <;> omega

/-! Facts about the forward fill. -/

theorem ffillRows_map_date (c : Option ℚ) (l : List NRow) :
    (ffillRows c l).map NRow.date = l.map NRow.date := by
  induction l generalizing c with
  | nil => rfl
  | cons r rs ih =>
      cases hp : r.price with
      | some p => simp [ffillRows, hp, ih]
      | none =>
          cases c with
          | some q => simp [ffillRows, hp, ih]
          | none => simp [ffillRows, hp, ih]

theorem ffillRows_length (c : Option ℚ) (l : List NRow) :
    (ffillRows c l).length = l.length := by
  have := congrArg List.length (ffillRows_map_date c l)
  simpa using this

theorem ffillRows_idem (c : Option ℚ) (l : List NRow) :
    ffillRows c (ffillRows c l) = ffillRows c l := by
  induction l generalizing c with
  | nil => rfl
  | cons r rs ih =>
      cases hp : r.price with
      | some p =>
          simp only [ffillRows, hp]
          simp [ffillRows, hp, ih]
      | none =>
          cases c with
          | some q =>
              simp only [ffillRows, hp]
              simp [ffillRows, ih]
          | none =>
              simp only [ffillRows, hp]
              simp [ffillRows, hp, ih]

theorem ffillRows_pred (Q : NRow → Prop)
    (hQ : ∀ r p, Q r → Q { r with price := p }) :
    ∀ (l : List NRow) (c : Option ℚ), (∀ r ∈ l, Q r) →
      ∀ r ∈ ffillRows c l, Q r := by
  intro l
  induction l with
  | nil => intro c _ r hr; simp [ffillRows] at hr
  | cons x xs ih =>
      intro c hall r hr
      cases hp : x.price with
      | some p =>
          simp only [ffillRows, hp, List.mem_cons] at hr
          rcases hr with hr | hr
          · exact hr ▸ hall x (by simp)
          · exact ih _ (fun y hy => hall y (by simp [hy])) r hr
      | none =>
          cases c with
          | some q =>
              simp only [ffillRows, hp, List.mem_cons] at hr
              rcases hr with hr | hr
              · exact hr ▸ hQ x (some q) (hall x (by simp))
              · exact ih _ (fun y hy => hall y (by simp [hy])) r hr
          | none =>
              simp only [ffillRows, hp, List.mem_cons] at hr
              rcases hr with hr | hr
              · exact hr ▸ hall x (by simp)
              · exact ih _ (fun y hy => hall y (by simp [hy])) r hr

theorem ffillRows_get_of_price_some :
    ∀ (l : List NRow) (c : Option ℚ) (i : Nat) (r : NRow) (p : ℚ),
      l[i]? = some r → r.price = some p → (ffillRows c l)[i]? = some r := by
  intro l
  induction l with
  | nil => intro c i r p h; simp at h
  | cons x xs ih =>
      intro c i r p h hp
      cases i with
      | zero =>
          simp at h
          subst h
          cases c <;> simp [ffillRows, hp]
      | succ n =>
          simp at h
          cases hx : x.price with
          | some q => simpa [ffillRows, hx] using ih (some q) n r p h hp
          | none =>
              cases c with
              | some q => simpa [ffillRows, hx] using ih (some q) n r p h hp
              | none => simpa [ffillRows, hx] using ih none n r p h hp

theorem getLast?_cons_q (a : ℚ) (l : List ℚ) :
    (a :: l).getLast? = some (l.getLast?.getD a) := by
  induction l generalizing a with
  | nil => rfl
  | cons b t ih =>
      rw [List.getLast?_cons_cons, ih b]
      simp

theorem lastValD_cons (c : Option ℚ) (x : Option ℚ) (t : List (Option ℚ)) :
    lastValD c (x :: t) =
      lastValD (match x with | some p => some p | none => c) t := by
  cases x with
  | none => simp [lastValD]
  | some p =>
      have hfm : ((some p :: t).filterMap id) = p :: t.filterMap id := by simp
      simp only [lastValD, hfm]
      rw [getLast?_cons_q]
      cases h : (t.filterMap id).getLast? <;> simp [h]

theorem ffillRows_get_price :
    ∀ (l : List NRow) (c : Option ℚ) (i : Nat), i < l.length →
      ((ffillRows c l)[i]?).map NRow.price =
        some (lastValD c ((l.map NRow.price).take (i + 1))) := by
  intro l
  induction l with
  | nil => intro c i hi; simp at hi
  | cons x xs ih =>
      intro c i hi
      cases hx : x.price with
      | some p =>
          cases i with
          | zero => simp [ffillRows, hx, lastValD, List.filterMap_cons]
          | succ n =>
              have hn : n < xs.length := by simpa using hi
              simp only [ffillRows, hx, List.map_cons, List.take_succ_cons]
              rw [lastValD_cons]
              simpa using ih (some p) n hn
      | none =>
          cases c with
          | some q =>
              cases i with
              | zero => simp [ffillRows, hx, lastValD, List.filterMap_cons]
              | succ n =>
                  have hn : n < xs.length := by simpa using hi
                  simp only [ffillRows, hx, List.map_cons, List.take_succ_cons]
                  rw [lastValD_cons]
                  simpa using ih (some q) n hn
          | none =>
              cases i with
              | zero => simp [ffillRows, hx, lastValD, List.filterMap_cons]
              | succ n =>
                  have hn : n < xs.length := by simpa using hi
                  simp only [ffillRows, hx, List.map_cons, List.take_succ_cons]
                  rw [lastValD_cons]
                  simpa using ih none n hn

/-! Facts about the deduplication by date. -/

theorem mem_of_mem_dedupByDateAux :
    ∀ (l : List NRow) (seen : List (Option Int)) (x : NRow),
      x ∈ dedupByDateAux seen l → x ∈ l := by
  intro l
  induction l with
  | nil => intro seen x hx; simp [dedupByDateAux] at hx
  | cons r rs ih =>
      intro seen x hx
      by_cases h : r.date ∈ seen
      · simp only [dedupByDateAux, if_pos h] at hx
        exact List.mem_cons_of_mem r (ih seen x hx)
      · simp only [dedupByDateAux, if_neg h, List.mem_cons] at hx
        rcases hx with hx | hx
        · exact hx ▸ List.mem_cons_self r rs
        · exact List.mem_cons_of_mem r (ih _ x hx)

theorem dedupByDateAux_pairwise :
    ∀ (l : List NRow) (seen : List (Option Int)),
      (dedupByDateAux seen l).Pairwise (fun a b => a.date ≠ b.date) ∧
      ∀ x ∈ dedupByDateAux seen l, x.date ∉ seen := by
  intro l
  induction l with
  | nil => intro seen; simp [dedupByDateAux]
  | cons r rs ih =>
      intro seen
      by_cases h : r.date ∈ seen
      · simpa only [dedupByDateAux, if_pos h] using ih seen
      · simp only [dedupByDateAux, if_neg h]
        obtain ⟨hpw, hnotin⟩ := ih (r.date :: seen)
        refine ⟨List.pairwise_cons.mpr ⟨?_, hpw⟩, ?_⟩
        · intro b hb
          have := hnotin b hb
          simp only [List.mem_cons] at this
          intro hc
          exact this (Or.inl hc.symm)
        · intro x hx
          simp only [List.mem_cons] at hx
          rcases hx with hx | hx
          · exact hx ▸ h
          · have := hnotin x hx
            simp only [List.mem_cons] at this
            exact fun hc => this (Or.inr hc)

theorem dedupByDateAux_eq_self :
    ∀ (l : List NRow) (seen : List (Option Int)),
      l.Pairwise (fun a b => a.date ≠ b.date) →
      (∀ x ∈ l, x.date ∉ seen) → dedupByDateAux seen l = l := by
  intro l
  induction l with
  | nil => intro seen _ _; rfl
  | cons r rs ih =>
      intro seen hpw hnotin
      have hr : r.date ∉ seen := hnotin r (List.mem_cons_self r rs)
      rw [List.pairwise_cons] at hpw
      simp only [dedupByDateAux, if_neg hr]
      congr 1
      refine ih (r.date :: seen) hpw.2 ?_
      intro x hx
      simp only [List.mem_cons]
      push_neg
      exact ⟨fun hc => (hpw.1 x hx) hc.symm, hnotin x (List.mem_cons_of_mem r hx)⟩

theorem mem_dedupByDateAux_of_first :
    ∀ (l₁ : List NRow) (r : NRow) (l₂ : List NRow) (seen : List (Option Int)),
      (∀ x ∈ l₁, x.date ≠ r.date) → r.date ∉ seen →
      r ∈ dedupByDateAux seen (l₁ ++ r :: l₂) := by
  intro l₁
  induction l₁ with
  | nil =>
      intro r l₂ seen _ hs
      simp only [List.nil_append, dedupByDateAux, if_neg hs]
      exact List.mem_cons_self r _
  | cons a l₁ ih =>
      intro r l₂ seen hne hs
      have ha : a.date ≠ r.date := hne a (List.mem_cons_self a l₁)
      have hrest : ∀ x ∈ l₁, x.date ≠ r.date :=
        fun x hx => hne x (List.mem_cons_of_mem a hx)
      by_cases h : a.date ∈ seen
      · simpa only [List.cons_append, dedupByDateAux, if_pos h] using ih r l₂ seen hrest hs
      · simp only [List.cons_append, dedupByDateAux, if_neg h]
        refine List.mem_cons_of_mem a (ih r l₂ (a.date :: seen) hrest ?_)
        simp only [List.mem_cons]
        push_neg
        exact ⟨fun hc => ha hc.symm, hs⟩

theorem filter_eq_singleton_of_pairwise :
    ∀ (l : List NRow) (r : NRow),
      l.Pairwise (fun a b => a.date ≠ b.date) → r ∈ l →
      l.filter (fun x => decide (x.date = r.date)) = [r] := by
  intro l
  induction l with
  | nil => intro r _ hr; simp at hr
  | cons a tl ih =>
      intro r hpw hr
      rw [List.pairwise_cons] at hpw
      rcases List.mem_cons.mp hr with hr | hr
      · subst hr
        simp only [List.filter_cons, decide_eq_true_eq, if_true, eq_self_iff_true]
        congr 1
        rw [List.filter_eq_nil_iff]
        intro b hb
        simp only [decide_eq_true_eq]
        exact fun hc => (hpw.1 b hb) hc.symm
      · have ha : a.date ≠ r.date := hpw.1 r hr
        simp only [List.filter_cons, decide_eq_true_eq]
        rw [if_neg ha]
        exact ih r hpw.2 hr

/-! Structure of successful normalisation results. -/

theorem preNormalize_ok_elim {t : Table} {kind : DataType} {id : String}
    {hoi hvol : Bool} {pre : List NRow}
    (h : preNormalize t kind id = .ok (hoi, hvol, pre)) :
    ∃ dc prices, mapStandardField t.cols "date" = some dc ∧
      priceColResolve t = some prices ∧
      hoi = (oiColOf t kind).isSome ∧ hvol = (volColOf t kind).isSome ∧
      pre = List.insertionSort RowLE (dedupByDate (rows0Of t kind dc prices)) := by
  unfold preNormalize at h
  split at h
  · exact absurd h (by simp)
  · split at h
    · exact absurd h (by simp)
    · rename_i s1 dc hdc s2 prices hpc
      simp only [Except.ok.injEq, Prod.mk.injEq] at h
      exact ⟨dc, prices, hdc, hpc, h.1.symm, h.2.1.symm, h.2.2.symm⟩

theorem preNormalize_sorted_pairwise {t : Table} {kind : DataType} {id : String}
    {hoi hvol : Bool} {pre : List NRow}
    (h : preNormalize t kind id = .ok (hoi, hvol, pre)) :
    pre.Pairwise RowLE ∧ pre.Pairwise (fun a b => a.date ≠ b.date) := by
  obtain ⟨dc, prices, _, _, _, _, hpre⟩ := preNormalize_ok_elim h
  subst hpre
  constructor
  · exact List.sorted_insertionSort RowLE _
  · have hperm := List.perm_insertionSort RowLE (dedupByDate (rows0Of t kind dc prices))
    have hpw := (dedupByDateAux_pairwise (rows0Of t kind dc prices) []).1
    exact (hperm.pairwise_iff (fun h => h.symm)).mpr hpw

theorem normalizeDF_ok_elim {t : Table} {kind : DataType} {id : String}
    {s : NormalizedSeries} (h : normalizeDF t kind id = .ok s) :
    ∃ pre, preNormalize t kind id = .ok (s.hasOI, s.hasVolume, pre) ∧
      s.rows = ffillRows none pre := by
  unfold normalizeDF at h
  cases hp : preNormalize t kind id with
  | error e => rw [hp] at h; simp [Except.map] at h
  | ok x =>
      rw [hp] at h
      obtain ⟨hoi, hvol, pre⟩ := x
      simp only [Except.map, Except.ok.injEq] at h
      subst h
      exact ⟨pre, rfl, rfl⟩

theorem pairwise_dates_transfer {l₁ l₂ : List NRow}
    (R : Option Int → Option Int → Prop)
    (h : l₁.map NRow.date = l₂.map NRow.date)
    (hp : l₁.Pairwise (fun a b => R a.date b.date)) :
    l₂.Pairwise (fun a b => R a.date b.date) := by
  have h1 : (l₁.map NRow.date).Pairwise R := List.pairwise_map.mpr hp
  have h2 : (l₂.map NRow.date).Pairwise R := h ▸ h1
  have h3 := List.pairwise_map.mp h2
  exact h3

theorem normalizeDF_rows_inv {t : Table} {kind : DataType} {id : String}
    {s : NormalizedSeries} (h : normalizeDF t kind id = .ok s) :
    s.rows.Pairwise (fun a b => a.date ≠ b.date) ∧ s.rows.Pairwise RowLE ∧
      ffillRows none s.rows = s.rows := by
  obtain ⟨pre, hpre, hrows⟩ := normalizeDF_ok_elim h
  obtain ⟨hsorted, hpw⟩ := preNormalize_sorted_pairwise hpre
  have hdates : pre.map NRow.date = s.rows.map NRow.date := by
    rw [hrows]; exact (ffillRows_map_date none pre).symm
  refine ⟨?_, ?_, ?_⟩
  · exact pairwise_dates_transfer (fun a b => a ≠ b) hdates hpw
  · exact pairwise_dates_transfer (fun a b => okLE a b = true) hdates hsorted
  · rw [hrows]; exact ffillRows_idem none pre

theorem rows0Of_oi_none {t : Table} {kind : DataType} {dc : String}
    {prices : List (Option ℚ)} (h : oiColOf t kind = none) :
    ∀ r ∈ rows0Of t kind dc prices, r.oi = none := by
  intro r hr
  unfold rows0Of at hr
  obtain ⟨x, hx, hmk⟩ := List.mem_map.mp hr
  obtain ⟨d, p, o, v⟩ := x
  have h2 := (List.of_mem_zip hx).2
  have h3 := (List.of_mem_zip h2).2
  have h4 := (List.of_mem_zip h3).1
  rw [h] at h4
  simp only [optNumCol, List.mem_map] at h4
  obtain ⟨_, _, ho⟩ := h4
  rw [← hmk]
  exact ho.symm

theorem rows0Of_volume_none {t : Table} {kind : DataType} {dc : String}
    {prices : List (Option ℚ)} (h : volColOf t kind = none) :
    ∀ r ∈ rows0Of t kind dc prices, r.volume = none := by
  intro r hr
  unfold rows0Of at hr
  obtain ⟨x, hx, hmk⟩ := List.mem_map.mp hr
  obtain ⟨d, p, o, v⟩ := x
  have h2 := (List.of_mem_zip hx).2
  have h3 := (List.of_mem_zip h2).2
  have h4 := (List.of_mem_zip h3).2
  rw [h] at h4
  simp only [optNumCol, List.mem_map] at h4
  obtain ⟨_, _, ho⟩ := h4
  rw [← hmk]
  exact ho.symm

theorem mem_pre_of_preNormalize {t : Table} {kind : DataType} {id : String}
    {hoi hvol : Bool} {pre : List NRow}
    (h : preNormalize t kind id = .ok (hoi, hvol, pre)) :
    ∃ dc prices, mapStandardField t.cols "date" = some dc ∧
      priceColResolve t = some prices ∧
      ∀ r ∈ pre, r ∈ rows0Of t kind dc prices := by
  obtain ⟨dc, prices, hdc, hpc, _, _, hpre⟩ := preNormalize_ok_elim h
  refine ⟨dc, prices, hdc, hpc, ?_⟩
  intro r hr
  rw [hpre] at hr
  have hperm := List.perm_insertionSort RowLE (dedupByDate (rows0Of t kind dc prices))
  exact mem_of_mem_dedupByDateAux _ _ _ (hperm.mem_iff.mp hr)

theorem normalizeDF_oi_off {t : Table} {kind : DataType} {id : String}
    {s : NormalizedSeries} (h : normalizeDF t kind id = .ok s)
    (hoi : s.hasOI = false) : ∀ r ∈ s.rows, r.oi = none := by
  obtain ⟨pre, hpre, hrows⟩ := normalizeDF_ok_elim h
  obtain ⟨dc, prices, hdc, hpc, h1, h2, _⟩ := preNormalize_ok_elim hpre
  have hcol : oiColOf t kind = none := by
    cases hc : oiColOf t kind with
    | none => rfl
    | some c => rw [hc] at h1; rw [hoi] at h1; simp at h1
  obtain ⟨dc2, prices2, hdc2, hpc2, hmem⟩ := mem_pre_of_preNormalize hpre
  have hall : ∀ r ∈ pre, r.oi = none := by
    intro r hr
    exact rows0Of_oi_none hcol r (hmem r hr)
  rw [hrows]
  exact ffillRows_pred (fun r => r.oi = none) (fun r p hq => hq) pre none hall

theorem normalizeDF_volume_off {t : Table} {kind : DataType} {id : String}
    {s : NormalizedSeries} (h : normalizeDF t kind id = .ok s)
    (hvol : s.hasVolume = false) : ∀ r ∈ s.rows, r.volume = none := by
  obtain ⟨pre, hpre, hrows⟩ := normalizeDF_ok_elim h
  obtain ⟨dc, prices, hdc, hpc, h1, h2, _⟩ := preNormalize_ok_elim hpre
  have hcol : volColOf t kind = none := by
    cases hc : volColOf t kind with
    | none => rfl
    | some c => rw [hc] at h2; rw [hvol] at h2; simp at h2
  obtain ⟨dc2, prices2, hdc2, hpc2, hmem⟩ := mem_pre_of_preNormalize hpre
  have hall : ∀ r ∈ pre, r.volume = none := by
    intro r hr
    exact rows0Of_volume_none hcol r (hmem r hr)
  rw [hrows]
  exact ffillRows_pred (fun r => r.volume = none) (fun r p hq => hq) pre none hall

theorem normalizeDF_spot_flags {t : Table} {id : String} {s : NormalizedSeries}
    (h : normalizeDF t .spot id = .ok s) :
    s.hasOI = false ∧ s.hasVolume = false := by
  obtain ⟨pre, hpre, _⟩ := normalizeDF_ok_elim h
  obtain ⟨dc, prices, _, _, h1, h2, _⟩ := preNormalize_ok_elim hpre
  constructor
  · rw [h1]; simp [oiColOf]
  · rw [h2]; simp [volColOf]

/-! Claims C4, C5, C8, C10. -/

/-- Claim C4: every `NormalizedSeries` produced by the normaliser
satisfies the shape invariant — the date, price, and (when present)
open-interest/volume sequences have equal length, and the dates are
unique and sorted in ascending order (strictly increasing under the
date-key order that places the at-most-one `NaT` last). -/
theorem claim_C4_series_invariant (t : Table) (kind : DataType) (id : String)
    (s : NormalizedSeries) (h : normalizeDF t kind id = .ok s) :
    (s.rows.map NRow.date).length = (s.rows.map NRow.price).length ∧
    (s.hasOI = true → (s.rows.map NRow.oi).length = (s.rows.map NRow.date).length) ∧
    (s.hasVolume = true →
      (s.rows.map NRow.volume).length = (s.rows.map NRow.date).length) ∧
    (s.rows.map NRow.date).Pairwise (fun a b => okLT a b = true) := by
  obtain ⟨hpw, hsorted, _⟩ := normalizeDF_rows_inv h
  refine ⟨by simp, fun _ => by simp, fun _ => by simp, ?_⟩
  have hcomb := hsorted.and hpw
  have h2 : s.rows.Pairwise (fun a b => okLT a.date b.date = true) :=
    hcomb.imp (fun hab => okLT_of_okLE_ne hab.1 hab.2)
  exact List.pairwise_map.mpr h2

/-- Witness for C4 at a concrete one-row futures table. -/
theorem claim_C4_series_invariant_witness :
    normalizeDF exFutT .futures "f" = .ok exFutS ∧
    ((exFutS.rows.map NRow.date).length = (exFutS.rows.map NRow.price).length ∧
     (exFutS.hasOI = true →
       (exFutS.rows.map NRow.oi).length = (exFutS.rows.map NRow.date).length) ∧
     (exFutS.hasVolume = true →
       (exFutS.rows.map NRow.volume).length = (exFutS.rows.map NRow.date).length) ∧
     (exFutS.rows.map NRow.date).Pairwise (fun a b => okLT a b = true)) :=
  ⟨by decide, claim_C4_series_invariant exFutT .futures "f" exFutS (by decide)⟩

theorem preNormalize_error_iff (t : Table) (kind : DataType) (id : String) :
    (∃ e, preNormalize t kind id = .error e) ↔
      (mapStandardField t.cols "date" = none ∨ priceColResolve t = none) := by
  unfold preNormalize
  cases hdc : mapStandardField t.cols "date" with
  | none => simp
  | some dc =>
      cases hpc : priceColResolve t with
      | none => simp
      | some prices => simp

theorem priceColResolve_none_iff (t : Table) :
    priceColResolve t = none ↔
      (mapStandardField t.cols "price" = none ∧
        "收盘价" ∉ t.cols ∧ "现货价格" ∉ t.cols) := by
  unfold priceColResolve
  cases hm : mapStandardField t.cols "price" with
  | some pc => simp
  | none =>
      by_cases h1 : "收盘价" ∈ t.cols
      · simp [h1]
      · by_cases h2 : "现货价格" ∈ t.cols
        · simp [h1, h2]
        · simp [h1, h2]

theorem normalizeDF_error_iff (t : Table) (kind : DataType) (id : String) :
    (∃ e, normalizeDF t kind id = .error e) ↔
      (∃ e, preNormalize t kind id = .error e) := by
  unfold normalizeDF
  cases hp : preNormalize t kind id <;> simp [Except.map]

/-- Claim C5: normalisation fails (with the source's `ValueError`, the
spec's `MissingFieldError`) exactly when no column maps to the canonical
date field, or no column maps to the canonical price field and neither
literal fallback price column name is present; in every other case it
returns a series without raising. -/
theorem claim_C5_missing_field_error (t : Table) (kind : DataType) (id : String) :
    (∃ e, normalizeDF t kind id = .error e) ↔
      (mapStandardField t.cols "date" = none ∨
        (mapStandardField t.cols "price" = none ∧
          "收盘价" ∉ t.cols ∧ "现货价格" ∉ t.cols)) := by
  rw [normalizeDF_error_iff t kind id, preNormalize_error_iff t kind id,
      priceColResolve_none_iff t]

/-- Claim C8: any table with a column matching the open-interest patterns
classifies as futures, regardless of all other features (rule 1 of the
ordered decision algorithm). -/
theorem claim_C8_oi_forces_futures (t : Table) (h : hasOICol t.cols = true) :
    detectDataType t = some .futures := by
  unfold detectDataType
  simp [h]

/-- Witness for C8 at a concrete futures table with an open-interest
column. -/
theorem claim_C8_oi_forces_futures_witness :
    hasOICol exFutT.cols = true ∧ detectDataType exFutT = some .futures :=
  ⟨by decide, claim_C8_oi_forces_futures exFutT (by decide)⟩

/-- Claim C10: the classifier's 1000-day threshold is strict on both
sides — a table with no open-interest column, a volume column, no
spot-price column, more than 100 rows and a date span of exactly 1000
days satisfies neither the futures rule (span strictly under 1000) nor
the spot rule (span strictly over 1000) and classifies as unknown. -/
theorem claim_C10_span_1000_unknown (t : Table)
    (h1 : hasOICol t.cols = false) (h2 : hasVolCol t.cols = true)
    (h3 : hasSpotCol t.cols = false) (h4 : 100 < t.rows.length)
    (h5 : dateSpan t = some 1000) : detectDataType t = none := by
  unfold detectDataType
  simp [h1, h2, h3, h5]

set_option maxRecDepth 8000 in
/-- Witness for C10 at a concrete 101-row volume table spanning exactly
1000 days. -/
theorem claim_C10_span_1000_unknown_witness :
    (hasOICol exSpanT.cols = false ∧ hasVolCol exSpanT.cols = true ∧
     hasSpotCol exSpanT.cols = false ∧ 100 < exSpanT.rows.length ∧
     dateSpan exSpanT = some 1000) ∧ detectDataType exSpanT = none :=
  ⟨⟨by decide, by decide, by decide, by decide, by decide⟩,
   claim_C10_span_1000_unknown exSpanT (by decide) (by decide) (by decide)
     (by decide) (by decide)⟩

/-! Claim C7: forward fill. -/

/-- Claim C7: after normalisation, the price at every position is the most
recent non-absent pre-fill price at or before that position — absent
prices following a valid price are replaced by the last valid price,
leading absent prices stay absent. -/
theorem claim_C7_forward_fill (t : Table) (kind : DataType) (idf : String)
    (hoi hvol : Bool) (pre : List NRow) (s : NormalizedSeries)
    (h1 : preNormalize t kind idf = .ok (hoi, hvol, pre))
    (h2 : normalizeDF t kind idf = .ok s)
    (i : Nat) (hi : i < pre.length) :
    (s.rows.map NRow.price)[i]? =
      some ((((pre.map NRow.price).take (i + 1)).filterMap id).getLast?) := by
  have hs : s.rows = ffillRows none pre := by
    obtain ⟨pre2, hpre2, hrows2⟩ := normalizeDF_ok_elim h2
    rw [hpre2] at h1
    simp only [Except.ok.injEq, Prod.mk.injEq] at h1
    rw [hrows2, h1.2.2]
  rw [hs]
  rw [List.getElem?_map]
  have := ffillRows_get_price pre none i hi
  rw [this]
  unfold lastValD
  cases hg : (((pre.map NRow.price).take (i + 1)).filterMap id).getLast? <;> simp [hg]

/-- Witness for C7: the specification's scenario — prices `[10, NaN, 12]`
forward-fill so that the middle position carries `10`, witnessed at
position 1 of the concrete table `exFfT`. -/
theorem claim_C7_forward_fill_witness :
    preNormalize exFfT .spot "s" =
      .ok (false, false,
        [⟨some 1, some 10, none, none⟩, ⟨some 2, none, none, none⟩,
         ⟨some 3, some 12, none, none⟩]) ∧
    normalizeDF exFfT .spot "s" =
      .ok ⟨false, false,
        [⟨some 1, some 10, none, none⟩, ⟨some 2, some 10, none, none⟩,
         ⟨some 3, some 12, none, none⟩]⟩ ∧
    ((⟨false, false,
        [⟨some 1, some 10, none, none⟩, ⟨some 2, some 10, none, none⟩,
         ⟨some 3, some 12, none, none⟩]⟩ : NormalizedSeries).rows.map
            NRow.price)[1]? =
      some (((([⟨some 1, some 10, none, none⟩, ⟨some 2, none, none, none⟩,
         ⟨some 3, some 12, none, none⟩] : List NRow).map NRow.price).take
           (1 + 1)).filterMap id).getLast? :=
  ⟨by decide, by decide,
   claim_C7_forward_fill exFfT .spot "s" false false
     [⟨some 1, some 10, none, none⟩, ⟨some 2, none, none, none⟩,
      ⟨some 3, some 12, none, none⟩]
     ⟨false, false,
      [⟨some 1, some 10, none, none⟩, ⟨some 2, some 10, none, none⟩,
       ⟨some 3, some 12, none, none⟩]⟩
     (by decide) (by decide) 1 (by decide)⟩

/-! Claim C6: deduplication keeps the first row per date. -/

theorem getElem?_zip_some {α β : Type} {l₁ : List α} {l₂ : List β} :
    ∀ {i : Nat} {a : α} {b : β}, l₁[i]? = some a → l₂[i]? = some b →
      (l₁.zip l₂)[i]? = some (a, b) := by
  induction l₁ generalizing l₂ with
  | nil => intro i a b h; simp at h
  | cons x xs ih =>
      intro i a b h1 h2
      cases l₂ with
      | nil => simp at h2
      | cons y ys =>
          cases i with
          | zero => simp_all
          | succ n =>
              simp only [List.zip_cons_cons, List.getElem?_cons_succ] at *
              exact ih h1 h2

theorem getElem?_zip_elim {α β : Type} {l₁ : List α} {l₂ : List β} :
    ∀ {i : Nat} {a : α} {b : β}, (l₁.zip l₂)[i]? = some (a, b) →
      l₁[i]? = some a ∧ l₂[i]? = some b := by
  induction l₁ generalizing l₂ with
  | nil => intro i a b h; simp [List.zip] at h
  | cons x xs ih =>
      intro i a b h
      cases l₂ with
      | nil => simp [List.zip] at h
      | cons y ys =>
          cases i with
          | zero =>
              simp only [List.zip_cons_cons, List.getElem?_cons_zero,
                Option.some.injEq, Prod.mk.injEq] at h
              simp [h.1, h.2]
          | succ n =>
              simp only [List.zip_cons_cons, List.getElem?_cons_succ] at *
              exact ih h

theorem mem_take_getElem? {α : Type} {l : List α} {i : Nat} {x : α}
    (h : x ∈ l.take i) : ∃ k, k < i ∧ l[k]? = some x := by
  obtain ⟨k, hk⟩ := List.mem_iff_getElem?.mp h
  rw [List.getElem?_take] at hk
  by_cases hki : k < i
  · exact ⟨k, hki, by simpa [hki] using hk⟩
  · simp [hki] at hk

theorem rows0Of_getElem?_date {t : Table} {kind : DataType} {dc : String}
    {prices : List (Option ℚ)} {k : Nat} {x : NRow}
    (h : (rows0Of t kind dc prices)[k]? = some x) :
    (parsedDates t dc)[k]? = some x.date := by
  unfold rows0Of at h
  rw [List.getElem?_map] at h
  cases hz : ((parsedDates t dc).zip (prices.zip
      ((optNumCol t (oiColOf t kind)).zip (optNumCol t (volColOf t kind)))))[k]? with
  | none => rw [hz] at h; simp at h
  | some y =>
      rw [hz] at h
      obtain ⟨d, p, o, v⟩ := y
      simp at h
      have := (getElem?_zip_elim hz).1
      rw [this, ← h]

theorem rows0Of_at {t : Table} {kind : DataType} {dc : String}
    {prices : List (Option ℚ)} {i : Nat} {dv : Option Int} {pv : Option ℚ}
    (hlen : prices.length = t.rows.length)
    (hd : (parsedDates t dc)[i]? = some dv) (hp : prices[i]? = some pv) :
    ∃ o v, (rows0Of t kind dc prices)[i]? = some ⟨dv, pv, o, v⟩ := by
  have hi : i < t.rows.length := by
    have := List.getElem?_eq_some_iff.mp hd
    obtain ⟨hlt, _⟩ := this
    simpa [parsedDates] using (by
      by_cases hall : ((t.rows.map (fun r => parseDateGeneral (getCell t r dc))).all
          Option.isNone)
      · simpa [parsedDates, hall] using hlt
      · simpa [parsedDates, hall] using hlt : i < t.rows.length)
  have hio : i < (optNumCol t (oiColOf t kind)).length := by
    cases hc : oiColOf t kind <;> simpa [optNumCol, hc] using hi
  have hiv : i < (optNumCol t (volColOf t kind)).length := by
    cases hc : volColOf t kind <;> simpa [optNumCol, hc] using hi
  refine ⟨(optNumCol t (oiColOf t kind))[i], (optNumCol t (volColOf t kind))[i], ?_⟩
  have ho : (optNumCol t (oiColOf t kind))[i]? =
      some ((optNumCol t (oiColOf t kind))[i]) := List.getElem?_eq_getElem hio
  have hv : (optNumCol t (volColOf t kind))[i]? =
      some ((optNumCol t (volColOf t kind))[i]) := List.getElem?_eq_getElem hiv
  unfold rows0Of
  rw [List.getElem?_map,
      getElem?_zip_some hd (getElem?_zip_some hp (getElem?_zip_some ho hv))]
  rfl

/-- Claim C6: when two or more rows of the input share the same parsed
date, only the first-encountered row survives (source order decides, not
the values): the output contains exactly one row at that date, and when
the first-encountered row's coerced price is present it is the price that
appears in the output. -/
theorem claim_C6_dedup_keeps_first (t : Table) (kind : DataType) (idf : String)
    (s : NormalizedSeries) (dc : String) (ps : List (Option ℚ))
    (d : Int) (p : ℚ) (i j : Nat)
    (h : normalizeDF t kind idf = .ok s)
    (hdc : mapStandardField t.cols "date" = some dc)
    (hpc : priceColResolve t = some ps)
    (hij : i < j)
    (hdi : (parsedDates t dc)[i]? = some (some d))
    (hdj : (parsedDates t dc)[j]? = some (some d))
    (hfirst : ∀ k, k < i → (parsedDates t dc)[k]? ≠ some (some d))
    (hpi : ps[i]? = some (some p)) :
    ∃ r, s.rows.filter (fun x => decide (x.date = some d)) = [r] ∧
      r.date = some d ∧ r.price = some p := by
  obtain ⟨pre, hpre, hrows⟩ := normalizeDF_ok_elim h
  obtain ⟨dc2, ps2, hdc2, hpc2, _, _, hpre2⟩ := preNormalize_ok_elim hpre
  rw [hdc] at hdc2
  rw [hpc] at hpc2
  obtain rfl : dc = dc2 := by injection hdc2
  obtain rfl : ps = ps2 := by injection hpc2
  have hlen : ps.length = t.rows.length := by
    cases hm : mapStandardField t.cols "price" with
    | some pc =>
        unfold priceColResolve at hpc
        rw [hm] at hpc
        simp only [Option.some.injEq] at hpc
        rw [← hpc]
        simp [pricesFromCol]
    | none =>
        unfold priceColResolve at hpc
        rw [hm] at hpc
        by_cases h1 : "收盘价" ∈ t.cols
        · simp only [h1, if_true] at hpc
          simp only [Option.some.injEq] at hpc
          rw [← hpc]; simp [pricesFromCol]
        · by_cases h2 : "现货价格" ∈ t.cols
          · simp only [h1, h2, if_true, if_false] at hpc
            simp only [Option.some.injEq] at hpc
            rw [← hpc]; simp [pricesFromCol]
          · simp [h1, h2] at hpc
  obtain ⟨ov, vv, hr0⟩ := rows0Of_at hlen hdi hpi
  set r0 : NRow := ⟨some d, some p, ov, vv⟩ with hr0def
  set rows0 := rows0Of t kind dc ps with hrows0
  have hdecomp : rows0 = rows0.take i ++ r0 :: rows0.drop (i + 1) := by
    obtain ⟨hlt, hget⟩ := List.getElem?_eq_some_iff.mp hr0
    conv_lhs => rw [← List.take_append_drop i rows0]
    congr 1
    rw [List.drop_eq_getElem_cons hlt, hget]
  have htake : ∀ x ∈ rows0.take i, x.date ≠ r0.date := by
    intro x hx
    obtain ⟨k, hki, hk⟩ := mem_take_getElem? hx
    have hxd := rows0Of_getElem?_date hk
    intro hc
    exact hfirst k hki (by rw [hxd, hc])
  have hmemdedup : r0 ∈ dedupByDate rows0 := by
    unfold dedupByDate
    rw [hdecomp]
    exact mem_dedupByDateAux_of_first _ r0 _ [] htake (by simp)
  have hmempre : r0 ∈ pre := by
    rw [hpre2]
    have hperm := List.perm_insertionSort RowLE (dedupByDate rows0)
    exact hperm.mem_iff.mpr hmemdedup
  obtain ⟨k2, hk2⟩ := List.mem_iff_getElem?.mp hmempre
  have hsk : s.rows[k2]? = some r0 := by
    rw [hrows]
    exact ffillRows_get_of_price_some pre none k2 r0 p hk2 rfl
  have hmems : r0 ∈ s.rows := List.mem_iff_getElem?.mpr ⟨k2, hsk⟩
  obtain ⟨hpw, _, _⟩ := normalizeDF_rows_inv h
  have hfilter := filter_eq_singleton_of_pairwise s.rows r0 hpw hmems
  refine ⟨r0, ?_, rfl, rfl⟩
  simpa using hfilter

/-- Witness for C6: a concrete table with two rows sharing date 5; the
first row's price 10 is kept and the second row's 99 is dropped. -/
theorem claim_C6_dedup_keeps_first_witness :
    normalizeDF exDdT .spot "d" =
      .ok ⟨false, false, [⟨some 5, some 10, none, none⟩]⟩ ∧
    ∃ r, (⟨false, false, [⟨some 5, some 10, none, none⟩]⟩ :
        NormalizedSeries).rows.filter (fun x => decide (x.date = some 5)) = [r] ∧
      r.date = some 5 ∧ r.price = some 10 :=
  ⟨by decide,
   claim_C6_dedup_keeps_first exDdT .spot "d"
     ⟨false, false, [⟨some 5, some 10, none, none⟩]⟩ "date"
     [some 10, some 99] 5 10 0 1
     (by decide) (by decide) (by decide) (by decide) (by decide) (by decide)
     (fun k hk => absurd hk (by omega)) (by decide)⟩

/-! Claim C3: idempotence of normalisation. -/

theorem zip4_map_mk_eq : ∀ (l : List NRow),
    (((l.map NRow.date).zip ((l.map NRow.price).zip
        ((l.map NRow.oi).zip (l.map NRow.volume)))).map
      (fun x => NRow.mk x.1 x.2.1 x.2.2.1 x.2.2.2)) = l := by
  intro l
  induction l with
  | nil => rfl
  | cons r rs ih =>
      simp only [List.map_cons, List.zip_cons_cons]
      rw [ih]

theorem encode_core (s : NormalizedSeries) (kind : DataType) (idf2 : String)
    (hpw : s.rows.Pairwise (fun a b => a.date ≠ b.date))
    (hsorted : s.rows.Pairwise RowLE)
    (hffix : ffillRows none s.rows = s.rows)
    (hmsfdate : mapStandardField (encodeSeries s).cols "date" = some "date")
    (hpcres : priceColResolve (encodeSeries s) = some (s.rows.map NRow.price))
    (hE3 : parsedDates (encodeSeries s) "date" = s.rows.map NRow.date)
    (hE4 : optNumCol (encodeSeries s) (oiColOf (encodeSeries s) kind) =
      s.rows.map NRow.oi)
    (hE5 : optNumCol (encodeSeries s) (volColOf (encodeSeries s) kind) =
      s.rows.map NRow.volume)
    (hOIsome : (oiColOf (encodeSeries s) kind).isSome = s.hasOI)
    (hVolsome : (volColOf (encodeSeries s) kind).isSome = s.hasVolume) :
    normalizeDF (encodeSeries s) kind idf2 = .ok s := by
  have hrows0 : rows0Of (encodeSeries s) kind "date" (s.rows.map NRow.price) = s.rows := by
    unfold rows0Of
    rw [hE3, hE4, hE5]
    exact zip4_map_mk_eq s.rows
  have hdedup : dedupByDate s.rows = s.rows :=
    dedupByDateAux_eq_self s.rows [] hpw (by simp)
  have hsort : List.insertionSort RowLE s.rows = s.rows :=
    List.Sorted.insertionSort_eq hsorted
  have hpre : preNormalize (encodeSeries s) kind idf2 =
      .ok (s.hasOI, s.hasVolume, s.rows) := by
    unfold preNormalize
    rw [hmsfdate, hpcres]
    show Except.ok ((oiColOf (encodeSeries s) kind).isSome,
        (volColOf (encodeSeries s) kind).isSome,
        List.insertionSort RowLE
          (dedupByDate (rows0Of (encodeSeries s) kind "date"
            (s.rows.map NRow.price)))) = _
    rw [hrows0, hdedup, hsort, hOIsome, hVolsome]
  unfold normalizeDF
  rw [hpre]
  show Except.ok (⟨s.hasOI, s.hasVolume, ffillRows none s.rows⟩ : NormalizedSeries) =
    Except.ok s
  rw [hffix]

theorem normalizeDF_encode {t : Table} {kind : DataType} {idf idf2 : String}
    {s : NormalizedSeries} (h : normalizeDF t kind idf = .ok s) :
    normalizeDF (encodeSeries s) kind idf2 = .ok s := by
  obtain ⟨hpw, hsorted, hffix⟩ := normalizeDF_rows_inv h
  cases hOI : s.hasOI with
  | false =>
      cases hVol : s.hasVolume with
      | false =>
          have hcols : (encodeSeries s).cols = ["date", "price"] := by
            simp [encodeSeries, hOI, hVol]
          have hrowsenc : (encodeSeries s).rows =
              s.rows.map (fun r => [encodeDateCell r.date, encodeNumCell r.price]) := by
            simp [encodeSeries, hOI, hVol]
          have hgd : ∀ r : NRow, getCell (encodeSeries s)
              [encodeDateCell r.date, encodeNumCell r.price] "date" =
              encodeDateCell r.date := by
            intro r; unfold getCell; rw [hcols]; rfl
          have hgp : ∀ r : NRow, getCell (encodeSeries s)
              [encodeDateCell r.date, encodeNumCell r.price] "price" =
              encodeNumCell r.price := by
            intro r; unfold getCell; rw [hcols]; rfl
          have hmsfdate : mapStandardField (encodeSeries s).cols "date" = some "date" := by
            rw [hcols]; decide
          have hmsfprice : mapStandardField (encodeSeries s).cols "price" = some "price" := by
            rw [hcols]; decide
          have hpcres : priceColResolve (encodeSeries s) =
              some (s.rows.map NRow.price) := by
            unfold priceColResolve
            rw [hmsfprice]
            show some (pricesFromCol (encodeSeries s) "price") = _
            congr 1
            unfold pricesFromCol
            rw [hrowsenc, List.map_map]
            refine List.map_congr_left ?_
            intro r _
            show parseNum (getCell (encodeSeries s)
              [encodeDateCell r.date, encodeNumCell r.price] "price") = r.price
            rw [hgp r]
            cases r.price <;> rfl
          have hd1 : (encodeSeries s).rows.map
              (fun r => parseDateGeneral (getCell (encodeSeries s) r "date")) =
              s.rows.map NRow.date := by
            rw [hrowsenc, List.map_map]
            refine List.map_congr_left ?_
            intro r _
            show parseDateGeneral (getCell (encodeSeries s)
              [encodeDateCell r.date, encodeNumCell r.price] "date") = r.date
            rw [hgd r]
            cases r.date <;> rfl
          have hd2 : (encodeSeries s).rows.map
              (fun r => parseDateCompact (getCell (encodeSeries s) r "date")) =
              s.rows.map NRow.date := by
            rw [hrowsenc, List.map_map]
            refine List.map_congr_left ?_
            intro r _
            show parseDateCompact (getCell (encodeSeries s)
              [encodeDateCell r.date, encodeNumCell r.price] "date") = r.date
            rw [hgd r]
            cases r.date <;> rfl
          have hE3 : parsedDates (encodeSeries s) "date" = s.rows.map NRow.date := by
            unfold parsedDates
            rw [hd1, hd2, ite_self]
          have hoicol : oiColOf (encodeSeries s) kind = none := by
            cases kind with
            | spot => rfl
            | futures =>
                show mapStandardField (encodeSeries s).cols "oi" = none
                rw [hcols]; decide
          have hvolcol : volColOf (encodeSeries s) kind = none := by
            cases kind with
            | spot => rfl
            | futures =>
                show mapStandardField (encodeSeries s).cols "volume" = none
                rw [hcols]; decide
          have hE4 : optNumCol (encodeSeries s) (oiColOf (encodeSeries s) kind) =
              s.rows.map NRow.oi := by
            rw [hoicol]
            show (encodeSeries s).rows.map (fun _ => none) = _
            rw [hrowsenc, List.map_map]
            refine List.map_congr_left ?_
            intro r hr
            exact (normalizeDF_oi_off h hOI r hr).symm
          have hE5 : optNumCol (encodeSeries s) (volColOf (encodeSeries s) kind) =
              s.rows.map NRow.volume := by
            rw [hvolcol]
            show (encodeSeries s).rows.map (fun _ => none) = _
            rw [hrowsenc, List.map_map]
            refine List.map_congr_left ?_
            intro r hr
            exact (normalizeDF_volume_off h hVol r hr).symm
          have hOIsome : (oiColOf (encodeSeries s) kind).isSome = s.hasOI := by
            rw [hoicol, hOI]; rfl
          have hVolsome : (volColOf (encodeSeries s) kind).isSome = s.hasVolume := by
            rw [hvolcol, hVol]; rfl
          exact encode_core s kind idf2 hpw hsorted hffix hmsfdate hpcres hE3 hE4
            hE5 hOIsome hVolsome
      | true =>
          cases kind with
          | spot =>
              have := (normalizeDF_spot_flags h).2
              rw [hVol] at this
              exact absurd this (by simp)
          | futures =>
              have hcols : (encodeSeries s).cols = ["date", "price", "volume"] := by
                simp [encodeSeries, hOI, hVol]
              have hrowsenc : (encodeSeries s).rows =
                  s.rows.map (fun r => [encodeDateCell r.date, encodeNumCell r.price,
                    encodeNumCell r.volume]) := by
                simp [encodeSeries, hOI, hVol]
              have hgd : ∀ r : NRow, getCell (encodeSeries s)
                  [encodeDateCell r.date, encodeNumCell r.price,
                    encodeNumCell r.volume] "date" = encodeDateCell r.date := by
                intro r; unfold getCell; rw [hcols]; rfl
              have hgp : ∀ r : NRow, getCell (encodeSeries s)
                  [encodeDateCell r.date, encodeNumCell r.price,
                    encodeNumCell r.volume] "price" = encodeNumCell r.price := by
                intro r; unfold getCell; rw [hcols]; rfl
              have hgv : ∀ r : NRow, getCell (encodeSeries s)
                  [encodeDateCell r.date, encodeNumCell r.price,
                    encodeNumCell r.volume] "volume" = encodeNumCell r.volume := by
                intro r; unfold getCell; rw [hcols]; rfl
              have hmsfdate : mapStandardField (encodeSeries s).cols "date" =
                  some "date" := by rw [hcols]; decide
              have hmsfprice : mapStandardField (encodeSeries s).cols "price" =
                  some "price" := by rw [hcols]; decide
              have hpcres : priceColResolve (encodeSeries s) =
                  some (s.rows.map NRow.price) := by
                unfold priceColResolve
                rw [hmsfprice]
                show some (pricesFromCol (encodeSeries s) "price") = _
                congr 1
                unfold pricesFromCol
                rw [hrowsenc, List.map_map]
                refine List.map_congr_left ?_
                intro r _
                show parseNum (getCell (encodeSeries s)
                  [encodeDateCell r.date, encodeNumCell r.price,
                    encodeNumCell r.volume] "price") = r.price
                rw [hgp r]
                cases r.price <;> rfl
              have hd1 : (encodeSeries s).rows.map
                  (fun r => parseDateGeneral (getCell (encodeSeries s) r "date")) =
                  s.rows.map NRow.date := by
                rw [hrowsenc, List.map_map]
                refine List.map_congr_left ?_
                intro r _
                show parseDateGeneral (getCell (encodeSeries s)
                  [encodeDateCell r.date, encodeNumCell r.price,
                    encodeNumCell r.volume] "date") = r.date
                rw [hgd r]
                cases r.date <;> rfl
              have hd2 : (encodeSeries s).rows.map
                  (fun r => parseDateCompact (getCell (encodeSeries s) r "date")) =
                  s.rows.map NRow.date := by
                rw [hrowsenc, List.map_map]
                refine List.map_congr_left ?_
                intro r _
                show parseDateCompact (getCell (encodeSeries s)
                  [encodeDateCell r.date, encodeNumCell r.price,
                    encodeNumCell r.volume] "date") = r.date
                rw [hgd r]
                cases r.date <;> rfl
              have hE3 : parsedDates (encodeSeries s) "date" =
                  s.rows.map NRow.date := by
                unfold parsedDates
                rw [hd1, hd2, ite_self]
              have hoicol : oiColOf (encodeSeries s) .futures = none := by
                show mapStandardField (encodeSeries s).cols "oi" = none
                rw [hcols]; decide
              have hvolcol : volColOf (encodeSeries s) .futures = some "volume" := by
                show mapStandardField (encodeSeries s).cols "volume" = some "volume"
                rw [hcols]; decide
              have hE4 : optNumCol (encodeSeries s)
                  (oiColOf (encodeSeries s) .futures) = s.rows.map NRow.oi := by
                rw [hoicol]
                show (encodeSeries s).rows.map (fun _ => none) = _
                rw [hrowsenc, List.map_map]
                refine List.map_congr_left ?_
                intro r hr
                exact (normalizeDF_oi_off h hOI r hr).symm
              have hE5 : optNumCol (encodeSeries s)
                  (volColOf (encodeSeries s) .futures) = s.rows.map NRow.volume := by
                rw [hvolcol]
                show (encodeSeries s).rows.map
                  (fun r => parseNum (getCell (encodeSeries s) r "volume")) = _
                rw [hrowsenc, List.map_map]
                refine List.map_congr_left ?_
                intro r _
                show parseNum (getCell (encodeSeries s)
                  [encodeDateCell r.date, encodeNumCell r.price,
                    encodeNumCell r.volume] "volume") = r.volume
                rw [hgv r]
                cases r.volume <;> rfl
              have hOIsome : (oiColOf (encodeSeries s) DataType.futures).isSome =
                  s.hasOI := by rw [hoicol, hOI]; rfl
              have hVolsome : (volColOf (encodeSeries s) DataType.futures).isSome =
                  s.hasVolume := by rw [hvolcol, hVol]; rfl
              exact encode_core s .futures idf2 hpw hsorted hffix hmsfdate hpcres
                hE3 hE4 hE5 hOIsome hVolsome
  | true =>
      cases kind with
      | spot =>
          have := (normalizeDF_spot_flags h).1
          rw [hOI] at this
          exact absurd this (by simp)
      | futures =>
          cases hVol : s.hasVolume with
          | false =>
              have hcols : (encodeSeries s).cols = ["date", "price", "oi"] := by
                simp [encodeSeries, hOI, hVol]
              have hrowsenc : (encodeSeries s).rows =
                  s.rows.map (fun r => [encodeDateCell r.date, encodeNumCell r.price,
                    encodeNumCell r.oi]) := by
                simp [encodeSeries, hOI, hVol]
              have hgd : ∀ r : NRow, getCell (encodeSeries s)
                  [encodeDateCell r.date, encodeNumCell r.price,
                    encodeNumCell r.oi] "date" = encodeDateCell r.date := by
                intro r; unfold getCell; rw [hcols]; rfl
              have hgp : ∀ r : NRow, getCell (encodeSeries s)
                  [encodeDateCell r.date, encodeNumCell r.price,
                    encodeNumCell r.oi] "price" = encodeNumCell r.price := by
                intro r; unfold getCell; rw [hcols]; rfl
              have hgo : ∀ r : NRow, getCell (encodeSeries s)
                  [encodeDateCell r.date, encodeNumCell r.price,
                    encodeNumCell r.oi] "oi" = encodeNumCell r.oi := by
                intro r; unfold getCell; rw [hcols]; rfl
              have hmsfdate : mapStandardField (encodeSeries s).cols "date" =
                  some "date" := by rw [hcols]; decide
              have hmsfprice : mapStandardField (encodeSeries s).cols "price" =
                  some "price" := by rw [hcols]; decide
              have hpcres : priceColResolve (encodeSeries s) =
                  some (s.rows.map NRow.price) := by
                unfold priceColResolve
                rw [hmsfprice]
                show some (pricesFromCol (encodeSeries s) "price") = _
                congr 1
                unfold pricesFromCol
                rw [hrowsenc, List.map_map]
                refine List.map_congr_left ?_
                intro r _
                show parseNum (getCell (encodeSeries s)
                  [encodeDateCell r.date, encodeNumCell r.price,
                    encodeNumCell r.oi] "price") = r.price
                rw [hgp r]
                cases r.price <;> rfl
              have hd1 : (encodeSeries s).rows.map
                  (fun r => parseDateGeneral (getCell (encodeSeries s) r "date")) =
                  s.rows.map NRow.date := by
                rw [hrowsenc, List.map_map]
                refine List.map_congr_left ?_
                intro r _
                show parseDateGeneral (getCell (encodeSeries s)
                  [encodeDateCell r.date, encodeNumCell r.price,
                    encodeNumCell r.oi] "date") = r.date
                rw [hgd r]
                cases r.date <;> rfl
              have hd2 : (encodeSeries s).rows.map
                  (fun r => parseDateCompact (getCell (encodeSeries s) r "date")) =
                  s.rows.map NRow.date := by
                rw [hrowsenc, List.map_map]
                refine List.map_congr_left ?_
                intro r _
                show parseDateCompact (getCell (encodeSeries s)
                  [encodeDateCell r.date, encodeNumCell r.price,
                    encodeNumCell r.oi] "date") = r.date
                rw [hgd r]
                cases r.date <;> rfl
              have hE3 : parsedDates (encodeSeries s) "date" =
                  s.rows.map NRow.date := by
                unfold parsedDates
                rw [hd1, hd2, ite_self]
              have hoicol : oiColOf (encodeSeries s) .futures = some "oi" := by
                show mapStandardField (encodeSeries s).cols "oi" = some "oi"
                rw [hcols]; decide
              have hvolcol : volColOf (encodeSeries s) .futures = none := by
                show mapStandardField (encodeSeries s).cols "volume" = none
                rw [hcols]; decide
              have hE4 : optNumCol (encodeSeries s)
                  (oiColOf (encodeSeries s) .futures) = s.rows.map NRow.oi := by
                rw [hoicol]
                show (encodeSeries s).rows.map
                  (fun r => parseNum (getCell (encodeSeries s) r "oi")) = _
                rw [hrowsenc, List.map_map]
                refine List.map_congr_left ?_
                intro r _
                show parseNum (getCell (encodeSeries s)
                  [encodeDateCell r.date, encodeNumCell r.price,
                    encodeNumCell r.oi] "oi") = r.oi
                rw [hgo r]
                cases r.oi <;> rfl
              have hE5 : optNumCol (encodeSeries s)
                  (volColOf (encodeSeries s) .futures) = s.rows.map NRow.volume := by
                rw [hvolcol]
                show (encodeSeries s).rows.map (fun _ => none) = _
                rw [hrowsenc, List.map_map]
                refine List.map_congr_left ?_
                intro r hr
                exact (normalizeDF_volume_off h hVol r hr).symm
              have hOIsome : (oiColOf (encodeSeries s) DataType.futures).isSome =
                  s.hasOI := by rw [hoicol, hOI]; rfl
              have hVolsome : (volColOf (encodeSeries s) DataType.futures).isSome =
                  s.hasVolume := by rw [hvolcol, hVol]; rfl
              exact encode_core s .futures idf2 hpw hsorted hffix hmsfdate hpcres
                hE3 hE4 hE5 hOIsome hVolsome
          | true =>
              have hcols : (encodeSeries s).cols =
                  ["date", "price", "oi", "volume"] := by
                simp [encodeSeries, hOI, hVol]
              have hrowsenc : (encodeSeries s).rows =
                  s.rows.map (fun r => [encodeDateCell r.date, encodeNumCell r.price,
                    encodeNumCell r.oi, encodeNumCell r.volume]) := by
                simp [encodeSeries, hOI, hVol]
              have hgd : ∀ r : NRow, getCell (encodeSeries s)
                  [encodeDateCell r.date, encodeNumCell r.price,
                    encodeNumCell r.oi, encodeNumCell r.volume] "date" =
                  encodeDateCell r.date := by
                intro r; unfold getCell; rw [hcols]; rfl
              have hgp : ∀ r : NRow, getCell (encodeSeries s)
                  [encodeDateCell r.date, encodeNumCell r.price,
                    encodeNumCell r.oi, encodeNumCell r.volume] "price" =
                  encodeNumCell r.price := by
                intro r; unfold getCell; rw [hcols]; rfl
              have hgo : ∀ r : NRow, getCell (encodeSeries s)
                  [encodeDateCell r.date, encodeNumCell r.price,
                    encodeNumCell r.oi, encodeNumCell r.volume] "oi" =
                  encodeNumCell r.oi := by
                intro r; unfold getCell; rw [hcols]; rfl
              have hgv : ∀ r : NRow, getCell (encodeSeries s)
                  [encodeDateCell r.date, encodeNumCell r.price,
                    encodeNumCell r.oi, encodeNumCell r.volume] "volume" =
                  encodeNumCell r.volume := by
                intro r; unfold getCell; rw [hcols]; rfl
              have hmsfdate : mapStandardField (encodeSeries s).cols "date" =
                  some "date" := by rw [hcols]; decide
              have hmsfprice : mapStandardField (encodeSeries s).cols "price" =
                  some "price" := by rw [hcols]; decide
              have hpcres : priceColResolve (encodeSeries s) =
                  some (s.rows.map NRow.price) := by
                unfold priceColResolve
                rw [hmsfprice]
                show some (pricesFromCol (encodeSeries s) "price") = _
                congr 1
                unfold pricesFromCol
                rw [hrowsenc, List.map_map]
                refine List.map_congr_left ?_
                intro r _
                show parseNum (getCell (encodeSeries s)
                  [encodeDateCell r.date, encodeNumCell r.price,
                    encodeNumCell r.oi, encodeNumCell r.volume] "price") = r.price
                rw [hgp r]
                cases r.price <;> rfl
              have hd1 : (encodeSeries s).rows.map
                  (fun r => parseDateGeneral (getCell (encodeSeries s) r "date")) =
                  s.rows.map NRow.date := by
                rw [hrowsenc, List.map_map]
                refine List.map_congr_left ?_
                intro r _
                show parseDateGeneral (getCell (encodeSeries s)
                  [encodeDateCell r.date, encodeNumCell r.price,
                    encodeNumCell r.oi, encodeNumCell r.volume] "date") = r.date
                rw [hgd r]
                cases r.date <;> rfl
              have hd2 : (encodeSeries s).rows.map
                  (fun r => parseDateCompact (getCell (encodeSeries s) r "date")) =
                  s.rows.map NRow.date := by
                rw [hrowsenc, List.map_map]
                refine List.map_congr_left ?_
                intro r _
                show parseDateCompact (getCell (encodeSeries s)
                  [encodeDateCell r.date, encodeNumCell r.price,
                    encodeNumCell r.oi, encodeNumCell r.volume] "date") = r.date
                rw [hgd r]
                cases r.date <;> rfl
              have hE3 : parsedDates (encodeSeries s) "date" =
                  s.rows.map NRow.date := by
                unfold parsedDates
                rw [hd1, hd2, ite_self]
              have hoicol : oiColOf (encodeSeries s) .futures = some "oi" := by
                show mapStandardField (encodeSeries s).cols "oi" = some "oi"
                rw [hcols]; decide
              have hvolcol : volColOf (encodeSeries s) .futures = some "volume" := by
                show mapStandardField (encodeSeries s).cols "volume" = some "volume"
                rw [hcols]; decide
              have hE4 : optNumCol (encodeSeries s)
                  (oiColOf (encodeSeries s) .futures) = s.rows.map NRow.oi := by
                rw [hoicol]
                show (encodeSeries s).rows.map
                  (fun r => parseNum (getCell (encodeSeries s) r "oi")) = _
                rw [hrowsenc, List.map_map]
                refine List.map_congr_left ?_
                intro r _
                show parseNum (getCell (encodeSeries s)
                  [encodeDateCell r.date, encodeNumCell r.price,
                    encodeNumCell r.oi, encodeNumCell r.volume] "oi") = r.oi
                rw [hgo r]
                cases r.oi <;> rfl
              have hE5 : optNumCol (encodeSeries s)
                  (volColOf (encodeSeries s) .futures) = s.rows.map NRow.volume := by
                rw [hvolcol]
                show (encodeSeries s).rows.map
                  (fun r => parseNum (getCell (encodeSeries s) r "volume")) = _
                rw [hrowsenc, List.map_map]
                refine List.map_congr_left ?_
                intro r _
                show parseNum (getCell (encodeSeries s)
                  [encodeDateCell r.date, encodeNumCell r.price,
                    encodeNumCell r.oi, encodeNumCell r.volume] "volume") = r.volume
                rw [hgv r]
                cases r.volume <;> rfl
              have hOIsome : (oiColOf (encodeSeries s) DataType.futures).isSome =
                  s.hasOI := by rw [hoicol, hOI]; rfl
              have hVolsome : (volColOf (encodeSeries s) DataType.futures).isSome =
                  s.hasVolume := by rw [hvolcol, hVol]; rfl
              exact encode_core s .futures idf2 hpw hsorted hffix hmsfdate hpcres
                hE3 hE4 hE5 hOIsome hVolsome

/-- Claim C3: normalisation is idempotent — re-normalising the canonical
table of an already-normalised series, with the same kind, yields a
series with the same dates and the same prices. -/
theorem claim_C3_normalize_idempotent (t : Table) (kind : DataType)
    (idf idf2 : String) (s : NormalizedSeries)
    (h : normalizeDF t kind idf = .ok s) :
    ∃ s2, normalizeDF (encodeSeries s) kind idf2 = .ok s2 ∧
      s2.rows.map NRow.date = s.rows.map NRow.date ∧
      s2.rows.map NRow.price = s.rows.map NRow.price :=
  ⟨s, normalizeDF_encode h, rfl, rfl⟩

/-- Witness for C3 at the concrete forward-fill table. -/
theorem claim_C3_normalize_idempotent_witness :
    normalizeDF exFfT .spot "s" =
      .ok ⟨false, false,
        [⟨some 1, some 10, none, none⟩, ⟨some 2, some 10, none, none⟩,
         ⟨some 3, some 12, none, none⟩]⟩ ∧
    ∃ s2, normalizeDF (encodeSeries ⟨false, false,
        [⟨some 1, some 10, none, none⟩, ⟨some 2, some 10, none, none⟩,
         ⟨some 3, some 12, none, none⟩]⟩) .spot "s2" = .ok s2 ∧
      s2.rows.map NRow.date =
        ((⟨false, false,
          [⟨some 1, some 10, none, none⟩, ⟨some 2, some 10, none, none⟩,
           ⟨some 3, some 12, none, none⟩]⟩ : NormalizedSeries)).rows.map NRow.date ∧
      s2.rows.map NRow.price =
        ((⟨false, false,
          [⟨some 1, some 10, none, none⟩, ⟨some 2, some 10, none, none⟩,
           ⟨some 3, some 12, none, none⟩]⟩ : NormalizedSeries)).rows.map NRow.price :=
  ⟨by decide,
   claim_C3_normalize_idempotent exFfT .spot "s" "s2"
     ⟨false, false,
      [⟨some 1, some 10, none, none⟩, ⟨some 2, some 10, none, none⟩,
       ⟨some 3, some 12, none, none⟩]⟩ (by decide)⟩

/-! Claim C9: the spot slot is last-write-wins. -/

theorem scan_foldl_spec (files : List (String × Table)) :
    ∀ st : ScanState,
      (∀ f ∈ files, isSpotFile f = true →
        (normalizeDF f.2 .spot (fileStem f.1)).isOk = true) →
      ((files.foldl processFile st).spotData =
        (match (files.filter isSpotFile).getLast? with
          | none => st.spotData
          | some f => (normalizeDF f.2 .spot (fileStem f.1)).toOption)) ∧
      (files.foldl processFile st).spotCount =
        st.spotCount + (files.filter isSpotFile).length ∧
      (files.foldl processFile st).errors =
        st.errors ++ files.filterMap scanErrorEntry := by
  induction files with
  | nil => intro st _; simp
  | cons f fs ih =>
      intro st hok
      have hok' : ∀ g ∈ fs, isSpotFile g = true →
          (normalizeDF g.2 .spot (fileStem g.1)).isOk = true :=
        fun g hg => hok g (List.mem_cons_of_mem f hg)
      by_cases hemp : f.2.rows.isEmpty = true
      · have hspot : isSpotFile f = false := by simp [isSpotFile, hemp]
        have hpf : processFile st f =
            { st with errors := st.errors ++ [f.1 ++ ": 文件为空或无法读取"] } := by
          simp [processFile, hemp]
        have hentry : scanErrorEntry f = some (f.1 ++ ": 文件为空或无法读取") := by
          simp [scanErrorEntry, hemp]
        obtain ⟨ih1, ih2, ih3⟩ := ih (processFile st f) hok'
        rw [hpf] at ih1 ih2 ih3
        refine ⟨?_, ?_, ?_⟩
        · rw [List.foldl_cons, hpf, ih1]
          simp [List.filter_cons, hspot]
        · rw [List.foldl_cons, hpf, ih2]
          simp [List.filter_cons, hspot]
        · rw [List.foldl_cons, hpf, ih3]
          simp [List.filterMap_cons, hentry]
      · cases hdet : detectDataType f.2 with
        | none =>
            have hspot : isSpotFile f = false := by simp [isSpotFile, hemp, hdet]
            have hpf : processFile st f =
                { st with errors := st.errors ++ [f.1 ++ ": 无法识别数据类型"] } := by
              simp [processFile, hemp, hdet]
            have hentry : scanErrorEntry f = some (f.1 ++ ": 无法识别数据类型") := by
              simp [scanErrorEntry, hemp, hdet]
            obtain ⟨ih1, ih2, ih3⟩ := ih (processFile st f) hok'
            rw [hpf] at ih1 ih2 ih3
            refine ⟨?_, ?_, ?_⟩
            · rw [List.foldl_cons, hpf, ih1]
              simp [List.filter_cons, hspot]
            · rw [List.foldl_cons, hpf, ih2]
              simp [List.filter_cons, hspot]
            · rw [List.foldl_cons, hpf, ih3]
              simp [List.filterMap_cons, hentry]
        | some dt =>
            cases dt with
            | spot =>
                have hspotT : isSpotFile f = true := by simp [isSpotFile, hemp, hdet]
                have hisok := hok f (List.mem_cons_self f fs) hspotT
                cases hns : normalizeDF f.2 .spot (fileStem f.1) with
                | error e =>
                    rw [hns] at hisok
                    simp [Except.isOk, Except.toBool] at hisok
                | ok s =>
                    have hpf : processFile st f =
                        { st with spotData := some s,
                                  spotCount := st.spotCount + 1 } := by
                      simp [processFile, hemp, hdet, hns]
                    have hentry : scanErrorEntry f = none := by
                      simp [scanErrorEntry, hemp, hdet, hns]
                    obtain ⟨ih1, ih2, ih3⟩ := ih (processFile st f) hok'
                    rw [hpf] at ih1 ih2 ih3
                    refine ⟨?_, ?_, ?_⟩
                    · rw [List.foldl_cons, hpf, ih1]
                      simp only [List.filter_cons, hspotT, if_true]
                      cases hfl : fs.filter isSpotFile with
                      | nil => simp [hns, Except.toOption]
                      | cons g gs =>
                          rw [List.getLast?_cons_cons]
                          cases hgl : (g :: gs).getLast? with
                          | none => simp at hgl
                          | some x => rfl
                    · rw [List.foldl_cons, hpf, ih2]
                      simp only [List.filter_cons, hspotT, if_true, List.length_cons]
                      omega
                    · rw [List.foldl_cons, hpf, ih3]
                      simp [List.filterMap_cons, hentry]
            | futures =>
                have hspot : isSpotFile f = false := by simp [isSpotFile, hemp, hdet]
                cases hns : normalizeDF f.2 .futures (extractContractCode f.1 f.2) with
                | ok s =>
                    have hpf : processFile st f =
                        { st with
                          futuresData :=
                            dictInsert st.futuresData (extractContractCode f.1 f.2) s,
                          futuresCount := st.futuresCount + 1 } := by
                      simp [processFile, hemp, hdet, hns]
                    have hentry : scanErrorEntry f = none := by
                      simp [scanErrorEntry, hemp, hdet, hns]
                    obtain ⟨ih1, ih2, ih3⟩ := ih (processFile st f) hok'
                    rw [hpf] at ih1 ih2 ih3
                    refine ⟨?_, ?_, ?_⟩
                    · rw [List.foldl_cons, hpf, ih1]
                      simp [List.filter_cons, hspot]
                    · rw [List.foldl_cons, hpf, ih2]
                      simp [List.filter_cons, hspot]
                    · rw [List.foldl_cons, hpf, ih3]
                      simp [List.filterMap_cons, hentry]
                | error e =>
                    have hpf : processFile st f =
                        { st with errors := st.errors ++ [f.1 ++ ": " ++ e] } := by
                      simp [processFile, hemp, hdet, hns]
                    have hentry : scanErrorEntry f = some (f.1 ++ ": " ++ e) := by
                      simp [scanErrorEntry, hemp, hdet, hns]
                    obtain ⟨ih1, ih2, ih3⟩ := ih (processFile st f) hok'
                    rw [hpf] at ih1 ih2 ih3
                    refine ⟨?_, ?_, ?_⟩
                    · rw [List.foldl_cons, hpf, ih1]
                      simp [List.filter_cons, hspot]
                    · rw [List.foldl_cons, hpf, ih2]
                      simp [List.filter_cons, hspot]
                    · rw [List.foldl_cons, hpf, ih3]
                      simp [List.filterMap_cons, hentry]

/-- Claim C9: the spot slot is last-write-wins — in a scan whose spot
files all normalise successfully and number at least two, the spot slot
after the scan equals the normalisation of the last-processed spot file;
earlier spot series are silently discarded (the error list receives
entries only from unreadable, unclassifiable or failing files); and
`spot_count` still counts every spot file. -/
theorem claim_C9_spot_last_write_wins (files : List (String × Table))
    (flast : String × Table)
    (h2 : 2 ≤ (files.filter isSpotFile).length)
    (hok : ∀ f ∈ files, isSpotFile f = true →
      (normalizeDF f.2 .spot (fileStem f.1)).isOk = true)
    (hlast : (files.filter isSpotFile).getLast? = some flast) :
    (scanAndLoad files).spotData =
      (normalizeDF flast.2 .spot (fileStem flast.1)).toOption ∧
    (scanAndLoad files).spotCount = (files.filter isSpotFile).length ∧
    (scanAndLoad files).errors = files.filterMap scanErrorEntry := by
  obtain ⟨h1, hcount, herr⟩ := scan_foldl_spec files initialScanState hok
  refine ⟨?_, ?_, ?_⟩
  · unfold scanAndLoad
    rw [h1, hlast]
  · unfold scanAndLoad
    rw [hcount]
    simp [initialScanState]
  · unfold scanAndLoad
    rw [herr]
    simp [initialScanState]

/-- Witness for C9: two spot files; the second one's series (price 20)
wins, both are counted, and no error is recorded. -/
theorem claim_C9_spot_last_write_wins_witness :
    (2 ≤ ([("a.csv", exGoodSpotT), ("b.csv", exSpotT2)].filter isSpotFile).length) ∧
    ((scanAndLoad [("a.csv", exGoodSpotT), ("b.csv", exSpotT2)]).spotData =
        (normalizeDF exSpotT2 .spot (fileStem "b.csv")).toOption ∧
      (scanAndLoad [("a.csv", exGoodSpotT), ("b.csv", exSpotT2)]).spotCount =
        ([("a.csv", exGoodSpotT), ("b.csv", exSpotT2)].filter isSpotFile).length ∧
      (scanAndLoad [("a.csv", exGoodSpotT), ("b.csv", exSpotT2)]).errors =
        [("a.csv", exGoodSpotT), ("b.csv", exSpotT2)].filterMap scanErrorEntry) :=
  ⟨by decide,
   claim_C9_spot_last_write_wins [("a.csv", exGoodSpotT), ("b.csv", exSpotT2)]
     ("b.csv", exSpotT2) (by decide) (by decide) (by decide)⟩

/-! Claim C1: alignment coverage. -/

theorem dictGetRow_aux (k : Option Int) :
    ∀ (rows : List NRow) (acc : Option NRow),
      rows.foldl (fun a r => if r.date = k then some r else a) acc = acc ∨
      ∃ r ∈ rows,
        rows.foldl (fun a r => if r.date = k then some r else a) acc = some r ∧
        r.date = k := by
  intro rows
  induction rows with
  | nil => intro acc; left; rfl
  | cons x xs ih =>
      intro acc
      rw [List.foldl_cons]
      by_cases hx : x.date = k
      · rcases ih (if x.date = k then some x else acc) with h | ⟨r, hr, hfold, hd⟩
        · right
          refine ⟨x, by simp, ?_, hx⟩
          rw [h, if_pos hx]
        · right
          exact ⟨r, by simp [hr], hfold, hd⟩
      · rcases ih (if x.date = k then some x else acc) with h | ⟨r, hr, hfold, hd⟩
        · left
          rw [h, if_neg hx]
        · right
          exact ⟨r, by simp [hr], hfold, hd⟩

theorem dictGetRow_mem {rows : List NRow} {k : Option Int} {r : NRow}
    (h : dictGetRow rows k = some r) : r ∈ rows ∧ r.date = k := by
  unfold dictGetRow at h
  rcases dictGetRow_aux k rows none with h0 | ⟨r', hr', hfold, hd⟩
  · rw [h0] at h
    exact absurd h (by simp)
  · rw [hfold] at h
    injection h with h
    subst h
    exact ⟨hr', hd⟩

theorem nearestPriceAux_mem (target : Int) :
    ∀ (rows : List NRow) (minD : Option Nat) (cl : Option (Option ℚ)),
      nearestPriceAux target rows minD cl = cl ∨
      ∃ r ∈ rows, r.date.isSome = true ∧
        nearestPriceAux target rows minD cl = some r.price := by
  intro rows
  induction rows with
  | nil => intro minD cl; left; rfl
  | cons x xs ih =>
      intro minD cl
      cases hx : x.date with
      | none =>
          rcases ih minD cl with h | ⟨r, hr, hd, hres⟩
          · left; simpa [nearestPriceAux, hx] using h
          · right
            exact ⟨r, by simp [hr], hd, by simpa [nearestPriceAux, hx] using hres⟩
      | some sd =>
          cases minD with
          | none =>
              rcases ih (some (target - sd).natAbs) (some x.price) with h | ⟨r, hr, hd, hres⟩
              · right
                exact ⟨x, by simp, by simp [hx],
                  by simpa [nearestPriceAux, hx] using h⟩
              · right
                exact ⟨r, by simp [hr], hd,
                  by simpa [nearestPriceAux, hx] using hres⟩
          | some m =>
              by_cases hlt : (target - sd).natAbs < m
              · rcases ih (some (target - sd).natAbs) (some x.price) with
                  h | ⟨r, hr, hd, hres⟩
                · right
                  exact ⟨x, by simp, by simp [hx],
                    by simpa [nearestPriceAux, hx, hlt] using h⟩
                · right
                  exact ⟨r, by simp [hr], hd,
                    by simpa [nearestPriceAux, hx, hlt] using hres⟩
              · rcases ih (some m) cl with h | ⟨r, hr, hd, hres⟩
                · left
                  simpa [nearestPriceAux, hx, hlt] using h
                · right
                  exact ⟨r, by simp [hr], hd,
                    by simpa [nearestPriceAux, hx, hlt] using hres⟩

theorem nearestPriceAux_isSome (target : Int) :
    ∀ (rows : List NRow) (minD : Option Nat) (cl : Option (Option ℚ)),
      minD.isSome = cl.isSome →
      ((∃ r ∈ rows, r.date.isSome = true) ∨ cl.isSome = true) →
      (nearestPriceAux target rows minD cl).isSome = true := by
  intro rows
  induction rows with
  | nil =>
      intro minD cl hinv hor
      rcases hor with h | h
      · obtain ⟨r, hr, _⟩ := h
        exact absurd hr (by simp)
      · exact h
  | cons x xs ih =>
      intro minD cl hinv hor
      cases hx : x.date with
      | none =>
          have hor' : (∃ r ∈ xs, r.date.isSome = true) ∨ cl.isSome = true := by
            rcases hor with ⟨r, hr, hrd⟩ | h
            · rcases List.mem_cons.mp hr with hr | hr
              · subst hr; rw [hx] at hrd; simp at hrd
              · exact Or.inl ⟨r, hr, hrd⟩
            · exact Or.inr h
          simpa [nearestPriceAux, hx] using ih minD cl hinv hor'
      | some sd =>
          cases minD with
          | none =>
              have := ih (some (target - sd).natAbs) (some x.price) rfl (Or.inr rfl)
              simpa [nearestPriceAux, hx] using this
          | some m =>
              have hcl : cl.isSome = true := hinv.symm
              by_cases hlt : (target - sd).natAbs < m
              · have := ih (some (target - sd).natAbs) (some x.price) rfl (Or.inr rfl)
                simpa [nearestPriceAux, hx, hlt] using this
              · have := ih (some m) cl hinv (Or.inr hcl)
                simpa [nearestPriceAux, hx, hlt] using this

theorem alignLoop_map_date (rows : List NRow) :
    ∀ (ds : List Int) (last : Option (Option ℚ)),
      (alignLoop rows last ds).map NRow.date = ds.map some := by
  intro ds
  induction ds with
  | nil => intro last; rfl
  | cons d ds ih =>
      intro last
      cases hdg : dictGetRow rows (some d) with
      | some r => simp [alignLoop, hdg, ih]
      | none =>
          cases last with
          | some p => simp [alignLoop, hdg, ih]
          | none => simp [alignLoop, hdg, ih]

theorem alignLoop_length (rows : List NRow) (ds : List Int)
    (last : Option (Option ℚ)) : (alignLoop rows last ds).length = ds.length := by
  have := congrArg List.length (alignLoop_map_date rows ds last)
  simpa using this

theorem alignLoop_price_isSome (rows : List NRow)
    (hvd : ∃ r ∈ rows, r.date.isSome = true)
    (hap : ∀ r ∈ rows, r.price.isSome = true) :
    ∀ (ds : List Int) (last : Option (Option ℚ)),
      (∀ p, last = some p → p.isSome = true) →
      ∀ x ∈ alignLoop rows last ds, x.price.isSome = true := by
  intro ds
  induction ds with
  | nil => intro last _ x hx; simp [alignLoop] at hx
  | cons d ds ih =>
      intro last hlast x hx
      cases hdg : dictGetRow rows (some d) with
      | some r =>
          have hrp : r.price.isSome = true := hap r (dictGetRow_mem hdg).1
          simp only [alignLoop, hdg, List.mem_cons] at hx
          rcases hx with hx | hx
          · subst hx; simpa using hrp
          · refine ih (some r.price) ?_ x hx
            intro p hp
            injection hp with hp
            subst hp
            exact hrp
      | none =>
          cases hl : last with
          | some p =>
              have hps : p.isSome = true := hlast p hl
              subst hl
              simp only [alignLoop, hdg, List.mem_cons] at hx
              rcases hx with hx | hx
              · subst hx; simpa using hps
              · refine ih (some p) ?_ x hx
                intro q hq
                injection hq with hq
                subst hq
                exact hps
          | none =>
              subst hl
              have hcsome : (nearestPriceAux d rows none none).isSome = true :=
                nearestPriceAux_isSome d rows none none rfl (Or.inl hvd)
              rcases nearestPriceAux_mem d rows none none with hres | ⟨r, hr, hrd, hres⟩
              · rw [hres] at hcsome; simp at hcsome
              · have hrp : r.price.isSome = true := hap r hr
                simp only [alignLoop, hdg, hres, List.mem_cons] at hx
                rcases hx with hx | hx
                · subst hx; simpa [Option.join] using hrp
                · refine ih (some r.price) ?_ x hx
                  intro q hq
                  injection hq with hq
                  subst hq
                  exact hrp

/-- Claim C1, amended: for a spot series with at least one validly-dated
row and no absent price, the realigned spot series has a non-absent price
at every futures-union date.  (The claim as frozen — any spot observation
anywhere suffices — is refuted by `claim_C1_counterexample`: the
nearest-neighbour cold-start fallback can select a leading absent price.) -/
theorem claim_C1_alignment_coverage (s : NormalizedSeries)
    (futs : List NormalizedSeries) (hne : futs ≠ [])
    (hvd : ∃ r ∈ s.rows, r.date.isSome = true)
    (hap : ∀ r ∈ s.rows, r.price.isSome = true) :
    ∀ d ∈ futuresUnionDates futs, ∃ a, alignedSpot (some s) futs = some a ∧
      ∃ x ∈ a.rows, x.date = some d ∧ x.price.isSome = true := by
  intro d hd
  have hudne : futuresUnionDates futs ≠ [] := by
    intro h
    rw [h] at hd
    exact absurd hd (by simp)
  have hfe : futs.isEmpty = false := by
    cases futs with
    | nil => exact absurd rfl hne
    | cons a l => rfl
  refine ⟨⟨false, false, alignLoop s.rows none (futuresUnionDates futs)⟩, ?_, ?_⟩
  · have hue : (futuresUnionDates futs).isEmpty = false := by
      cases hu : futuresUnionDates futs with
      | nil => exact absurd hu hudne
      | cons a l => rfl
    simp [alignedSpot, hfe, hue]
  · have hmap := alignLoop_map_date s.rows (futuresUnionDates futs) none
    have hdmem : some d ∈
        (alignLoop s.rows none (futuresUnionDates futs)).map NRow.date := by
      rw [hmap]
      exact List.mem_map_of_mem some hd
    obtain ⟨x, hx, hxd⟩ := List.mem_map.mp hdmem
    refine ⟨x, hx, hxd, ?_⟩
    exact alignLoop_price_isSome s.rows hvd hap _ none
      (fun p hp => absurd hp (by simp)) x hx

/-- Witness for C1 at a one-row all-valid spot series and one futures
contract trading on date 0. -/
theorem claim_C1_alignment_coverage_witness :
    (([exFutS] : List NormalizedSeries) ≠ [] ∧
     (∃ r ∈ exGoodSpotS.rows, r.date.isSome = true) ∧
     (∀ r ∈ exGoodSpotS.rows, r.price.isSome = true) ∧
     (0 : Int) ∈ futuresUnionDates [exFutS]) ∧
    (∃ a, alignedSpot (some exGoodSpotS) [exFutS] = some a ∧
      ∃ x ∈ a.rows, x.date = some 0 ∧ x.price.isSome = true) :=
  ⟨⟨by decide, by decide, by decide, by decide⟩,
   claim_C1_alignment_coverage exGoodSpotS [exFutS] (by decide) (by decide)
     (by decide) 0 (by decide)⟩

/-- Counterexample to C1 as frozen: the spot series `exSpotS` (reachable
from the raw table `exSpotT`) has a valid observation (price 10 at date
2), yet after alignment to the futures calendar `[0]` the realigned spot
price at date 0 is absent — the cold-start nearest-neighbour fallback
selects the strictly nearer date 1, whose price is a leading gap. -/
theorem claim_C1_counterexample :
    normalizeDF exSpotT .spot "s" = .ok exSpotS ∧
    detectDataType exSpotT = some .spot ∧
    detectDataType exFutT = some .futures ∧
    normalizeDF exFutT .futures "f" = .ok exFutS ∧
    (∃ r ∈ exSpotS.rows, r.date.isSome = true ∧ r.price.isSome = true) ∧
    (0 : Int) ∈ futuresUnionDates [exFutS] ∧
    alignedSpot (some exSpotS) [exFutS] =
      some ⟨false, false, [⟨some 0, none, none, none⟩]⟩ := by
  exact ⟨by decide, by decide, by decide, by decide, by decide, by decide, by decide⟩

/-! Claim C2: panel columns and the basis identity. -/

theorem alignedSpot_of_some (s : NormalizedSeries) (futs : List NormalizedSeries) :
    ∃ sa, alignedSpot (some s) futs = some sa ∧ (s.rows ≠ [] → sa.rows ≠ []) := by
  cases hfe : futs.isEmpty with
  | true => exact ⟨s, by simp [alignedSpot, hfe], fun h => h⟩
  | false =>
      cases hue : (futuresUnionDates futs).isEmpty with
      | true => exact ⟨s, by simp [alignedSpot, hfe, hue], fun h => h⟩
      | false =>
          refine ⟨⟨false, false, alignLoop s.rows none (futuresUnionDates futs)⟩,
            by simp [alignedSpot, hfe, hue], ?_⟩
          intro _ hcon
          have hcon' : alignLoop s.rows none (futuresUnionDates futs) = [] := hcon
          have hlen := alignLoop_length s.rows (futuresUnionDates futs) none
          rw [hcon'] at hlen
          cases hu : futuresUnionDates futs with
          | nil => rw [hu] at hue; simp at hue
          | cons a l => rw [hu] at hlen; simp at hlen

theorem zipWith_self {α β : Type} (f : α → α → β) :
    ∀ l : List α, List.zipWith f l l = l.map (fun x => f x x) := by
  intro l
  induction l with
  | nil => rfl
  | cons x xs ih => simp [ih]

/-- Claim C2, amended: provided a spot series exists and is non-empty,
the panel contains, for every contract in the registry, a `futures_<id>`
column and a `basis_<id>` column, and the basis column is the pointwise
`NaN`-propagating difference of the panel's `spot_price` column and that
`futures_<id>` column — present exactly where both are present, absent
otherwise.  (The claim as frozen, without a spot series existing, is
refuted by `claim_C2_counterexample`: with no spot series the panel has
no basis columns at all.) -/
theorem claim_C2_panel_basis (s : NormalizedSeries)
    (futs : List (String × NormalizedSeries)) (hne : s.rows ≠ []) :
    ∀ fp ∈ futs, ∃ scol fcol bcol,
      ("spot_price", scol) ∈ (getUnifiedPanel (some s) futs).cols ∧
      ("futures_" ++ fp.1, fcol) ∈ (getUnifiedPanel (some s) futs).cols ∧
      ("basis_" ++ fp.1, bcol) ∈ (getUnifiedPanel (some s) futs).cols ∧
      bcol = List.zipWith osub scol fcol := by
  intro fp hfp
  obtain ⟨sa, hsa, hnea⟩ := alignedSpot_of_some s (futs.map (·.2))
  have hsane : sa.rows ≠ [] := hnea hne
  have hkeysne : (sa.rows.map (·.date)) ++
      futs.flatMap (fun f => f.2.rows.map (·.date)) ≠ [] := by
    intro hcon
    rcases List.append_eq_nil.mp hcon with ⟨h1, _⟩
    exact hsane (List.map_eq_nil.mp h1)
  have hidxne : panelIndexOf (some sa) futs ≠ [] := by
    unfold panelIndexOf
    intro hcon
    have hperm := List.perm_insertionSort (fun a b => okLE a b = true)
      (((sa.rows.map (·.date)) ++
        futs.flatMap (fun f => f.2.rows.map (·.date))).dedup)
    rw [hcon] at hperm
    have hded := List.Perm.nil_eq hperm
    have := (List.dedup_eq_nil _).mp hded.symm
    exact hkeysne this
  have hidxe : (panelIndexOf (some sa) futs).isEmpty = false := by
    cases hu : panelIndexOf (some sa) futs with
    | nil => exact absurd hu hidxne
    | cons a l => rfl
  have hpanel : getUnifiedPanel (some s) futs =
      ⟨panelIndexOf (some sa) futs,
        [("spot_price", (panelIndexOf (some sa) futs).map (colGet sa.rows))] ++
        futs.flatMap (fun f =>
          [("futures_" ++ f.1, (panelIndexOf (some sa) futs).map (colGet f.2.rows)),
           ("basis_" ++ f.1, (panelIndexOf (some sa) futs).map
             (fun d => osub (colGet sa.rows d) (colGet f.2.rows d)))])⟩ := by
    unfold getUnifiedPanel
    rw [hsa]
    simp only [hidxe, Bool.false_eq_true, if_false]
  refine ⟨(panelIndexOf (some sa) futs).map (colGet sa.rows),
    (panelIndexOf (some sa) futs).map (colGet fp.2.rows),
    (panelIndexOf (some sa) futs).map
      (fun d => osub (colGet sa.rows d) (colGet fp.2.rows d)),
    ?_, ?_, ?_, ?_⟩
  · rw [hpanel]; simp
  · rw [hpanel]
    simp only [Panel.mk.injEq, List.mem_append, List.mem_flatMap]
    right
    exact ⟨fp, hfp, by simp⟩
  · rw [hpanel]
    simp only [Panel.mk.injEq, List.mem_append, List.mem_flatMap]
    right
    exact ⟨fp, hfp, by simp⟩
  · rw [List.zipWith_map osub (colGet sa.rows) (colGet fp.2.rows),
        zipWith_self]

/-- Witness for C2 at a one-row spot series and one registered contract. -/
theorem claim_C2_panel_basis_witness :
    (exGoodSpotS.rows ≠ []) ∧
    (∀ fp ∈ [("cu2301", exFutS)], ∃ scol fcol bcol,
      ("spot_price", scol) ∈
        (getUnifiedPanel (some exGoodSpotS) [("cu2301", exFutS)]).cols ∧
      ("futures_" ++ fp.1, fcol) ∈
        (getUnifiedPanel (some exGoodSpotS) [("cu2301", exFutS)]).cols ∧
      ("basis_" ++ fp.1, bcol) ∈
        (getUnifiedPanel (some exGoodSpotS) [("cu2301", exFutS)]).cols ∧
      bcol = List.zipWith osub scol fcol) :=
  ⟨by decide,
   claim_C2_panel_basis exGoodSpotS [("cu2301", exFutS)] (by decide)⟩

/-- Counterexample to C2 as frozen: a scan that registers one futures
contract and finds no spot series builds a panel that has the
`futures_cu2301` column but no `basis_cu2301` column at all. -/
theorem claim_C2_counterexample :
    (scanAndLoad [("cu2301.csv", exFutT)]).spotData = none ∧
    (scanAndLoad [("cu2301.csv", exFutT)]).futuresData = [("cu2301", exFutS)] ∧
    (("futures_cu2301", [some (5 : ℚ)]) ∈
      (getUnifiedPanel none [("cu2301", exFutS)]).cols) ∧
    (∀ c ∈ (getUnifiedPanel none [("cu2301", exFutS)]).cols,
      c.1 ≠ "basis_cu2301") :=
  ⟨by decide, by decide, by decide, by decide⟩

end OmniDataGateway
